import Mathlib

/-!
# Aliyun resource-operation layer: ECS operator and resource manager

A shallow embedding of `aliyun/ecs/operation.go` (the ECS operator: paged
listing, by-id lookup, tag filtering, the response mapper) and of
`aliyun/operation/operation.go` (the `ResourceManager` registry), followed by
theorems about them.

Conventions of the embedding

* Go `int32` values are integers carried with their range (`I32`); arithmetic
  that can leave the range wraps explicitly (`wrapInt`).
* Go `map[string]V` is a finite map with unique keys (`GoMap`); indexing a
  missing key yields the zero value.
* A Go pointer field is an `Option`; dereferencing `none` is a runtime panic.
* The SDK client is a state-passing function; every call is appended to a log
  of requests so that the theorems can speak about the fetches a run issues.
* A `for` loop without a bound takes a fuel argument.
-/

namespace Aliyun

/-! ## Machine integers -/

/-- Two's-complement wrap of an integer to `w` bits. -/
def wrapInt (w : Nat) (i : Int) : Int :=
  (i + 2 ^ (w - 1)) % 2 ^ w - 2 ^ (w - 1)

/-- Conversion to Go `int64`. -/
def int64 (i : Int) : Int := wrapInt 64 i

/-- A Go `int32`: an integer together with its range. -/
structure I32 where
  toInt : Int
  inRange : -2147483648 ≤ toInt ∧ toInt ≤ 2147483647
  deriving DecidableEq

/-- Conversion to Go `int32` (wraps). -/
def I32.ofInt (i : Int) : I32 :=
  ⟨wrapInt 32 i, by unfold wrapInt; norm_num; omega⟩

/-- The Go statement `n++` on an `int32`. -/
def I32.succ (n : I32) : I32 := I32.ofInt (n.toInt + 1)

/-! ## Go maps, errors, time -/

/-- A Go `map[string]V`: finitely many entries, keys unique. -/
abbrev GoMap (V : Type) := AList (fun _ : String => V)

/-- The Go expression `m[k]` on a `map[string]string`: the zero value `""`
for a missing key. -/
def GoMap.index (m : GoMap String) (k : String) : String :=
  (m.lookup k).getD ""

/-- A Go `error` value: one made by `fmt.Errorf`, or any other error value
(such as one the SDK returns). -/
inductive GoError where
  | errorf (msg : String)
  | other (code : String) (msg : String)
  deriving DecidableEq, Repr

/-- A `time.Time`, as seconds from the zero time. -/
structure Time where
  sec : Int
  deriving DecidableEq, Repr

/-- The zero value `time.Time{}`. -/
def Time.zero : Time := ⟨0⟩

/-! ## Canonical model (`aliyun/models/models.go`) -/

/-- The struct `models.ECSInstance`. -/
structure ECSInstance where
  InstanceId : String
  InstanceName : String
  RegionId : String
  Status : String
  InstanceType : String
  PublicIp : List String
  PrivateIp : List String
  VpcId : String
  VSwitchId : String
  CreationTime : Time
  ExpiredTime : Time
  Tags : GoMap String
  CpuCoreCount : Int
  MemorySize : Int
  OsType : String
  OsName : String
  ZoneId : String
  SecurityGroupIds : List String
  HostName : String
  ImageId : String
  InstanceChargeType : String
  deriving DecidableEq

/-- A non-nil value of the interface `models.CloudResource`, as the ECS
operator populates it: it holds a `*ECSInstance`, either a pointer to an
instance (`ecs`) or the nil pointer (`nilECS`, a typed nil). -/
inductive CloudResource where
  | ecs (inst : ECSInstance)
  | nilECS
  deriving DecidableEq

/-- The conversion of a `*ECSInstance` to the interface `CloudResource`: the
interface value is non-nil also for the nil pointer. -/
def CloudResource.ofPointer : Option ECSInstance → CloudResource
  | some inst => .ecs inst
  | none => .nilECS

/-- The method `GetResourceId`; `none` is the panic of reading a field
through the nil pointer. -/
def CloudResource.GetResourceId : CloudResource → Option String
  | .ecs e => some e.InstanceId
  | .nilECS => none

/-- The method `GetResourceType`. -/
def CloudResource.GetResourceType : CloudResource → String
  | .ecs _ => "ECS"
  | .nilECS => "ECS"

/-! ## SDK request and response shapes

Only the fields `operation.go` reads or writes, plus the record's tag list. -/

/-- The SDK type `DescribeInstancesRequest`. -/
structure DescribeInstancesRequest where
  RegionId : Option String
  PageNumber : Option I32
  PageSize : Option I32
  InstanceIds : Option String
  deriving DecidableEq

/-- One record of the SDK response (`...ResponseBodyInstancesInstance`). -/
structure InstanceRecord where
  InstanceId : Option String
  InstanceName : Option String
  RegionId : Option String
  Status : Option String
  InstanceType : Option String
  CreationTime : Option String
  ExpiredTime : Option String
  Cpu : Option I32
  Memory : Option I32
  Tags : Option (List (String × String))
  deriving DecidableEq

/-- The SDK type `...ResponseBodyInstances`; `none` is a nil slice, a list
element `none` a nil record pointer. -/
structure InstancesBody where
  Instance : Option (List (Option InstanceRecord))
  deriving DecidableEq

/-- The SDK type `DescribeInstancesResponseBody`. -/
structure ResponseBody where
  Instances : Option InstancesBody
  TotalCount : Option I32
  deriving DecidableEq

/-- The SDK type `DescribeInstancesResponse`. -/
structure DescribeInstancesResponse where
  Body : Option ResponseBody
  deriving DecidableEq

/-- The SDK client: `DescribeInstances` against a provider in state `σ`
returns a response or an error, and the provider's next state. -/
structure Client (σ : Type) where
  DescribeInstances :
    σ → DescribeInstancesRequest → Except GoError DescribeInstancesResponse × σ

/-- The struct `ECSOperator`. -/
structure ECSOperator (σ : Type) where
  client : Client σ
  region : String

/-- The constructor `NewECSOperator`. -/
def NewECSOperator {σ : Type} (client : Client σ) (region : String) : ECSOperator σ :=
  { client := client, region := region }

/-! ## Outcomes of a call -/

/-- How a call ends: it returns, it panics (a nil dereference), or the fuel
given to its loop ran out before the loop ended. -/
inductive Outcome (α : Type) where
  | returned (a : α)
  | panicked
  | unfinished
  deriving DecidableEq

/-- A call together with its effects: the provider state it leaves and the
requests it issued, oldest first. -/
structure Exec (σ α : Type) where
  out : Outcome α
  state : σ
  calls : List DescribeInstancesRequest

/-- The `context.Context` argument: what `ctx.Err()` would report. The ECS
operator receives it and never reads it. -/
structure Context where
  err : Option GoError

/-! ## The response mapper (`convertToECSInstances`) -/

/-- One iteration of the loop of `convertToECSInstances`: the entity built
from one record. `none` is the panic of dereferencing a nil pointer (the
record itself, or one of the fields read through `*`). -/
def convertRecord (timeParse : String → Option Time) (r : Option InstanceRecord) :
    Option ECSInstance := do
  let inst ← r
  let creationTime := (timeParse (← inst.CreationTime)).getD Time.zero
  let expiredTime :=
    match inst.ExpiredTime with
    | none => Time.zero
    | some t => (timeParse t).getD Time.zero
  let instanceId ← inst.InstanceId
  let instanceName ← inst.InstanceName
  let regionId ← inst.RegionId
  let status ← inst.Status
  let instanceType ← inst.InstanceType
  let cpu ← inst.Cpu
  let memory ← inst.Memory
  pure
    { InstanceId := instanceId
      InstanceName := instanceName
      RegionId := regionId
      Status := status
      InstanceType := instanceType
      PublicIp := []
      PrivateIp := []
      VpcId := ""
      VSwitchId := ""
      CreationTime := creationTime
      ExpiredTime := expiredTime
      Tags := ∅
      CpuCoreCount := cpu.toInt
      MemorySize := memory.toInt
      OsType := ""
      OsName := ""
      ZoneId := ""
      SecurityGroupIds := []
      HostName := ""
      ImageId := ""
      InstanceChargeType := "" }

/-- The loop of `convertToECSInstances` over the records, in order. -/
def convertRecords (timeParse : String → Option Time) :
    List (Option InstanceRecord) → Option (List ECSInstance)
  | [] => some []
  | r :: rest =>
    match convertRecord timeParse r with
    | none => none
    | some e =>
      match convertRecords timeParse rest with
      | none => none
      | some es => some (e :: es)

/-- The function `convertToECSInstances`; `none` is a panic. -/
def convertToECSInstances (timeParse : String → Option Time)
    (response : DescribeInstancesResponse) : Option (List ECSInstance) :=
  match response.Body with
  | none => none
  | some body =>
    match body.Instances with
    | none => some []
    | some insts =>
      match insts.Instance with
      | none => some []
      | some records => convertRecords timeParse records

/-! ## The ECS operator (`aliyun/ecs/operation.go`) -/

/-- The loop test `int64(pageNumber)*int64(pageSize) >= int64(*TotalCount)`. -/
def stopTest (pageNumber pageSize totalCount : I32) : Bool :=
  decide (int64 (int64 pageNumber.toInt * int64 pageSize.toInt) ≥ int64 totalCount.toInt)

/-- The request a paging loop builds for one page. -/
def pageRequest (regionId : String) (pageNumber pageSize : I32) : DescribeInstancesRequest :=
  { RegionId := some regionId
    PageNumber := some pageNumber
    PageSize := some pageSize
    InstanceIds := none }

/-- The `for` loop of `ListInstances` (lines 193-215), from the iteration
that is about to fetch page `pageNumber`. -/
def ListInstances.loop {σ : Type} (timeParse : String → Option Time) (op : ECSOperator σ)
    (regionId : String) (pageSize : I32) :
    Nat → σ → I32 → List ECSInstance → List DescribeInstancesRequest →
      Exec σ (List ECSInstance × Option GoError)
  | 0, s, _, _, calls => ⟨.unfinished, s, calls⟩
  | fuel + 1, s, pageNumber, allInstances, calls =>
    let request := pageRequest regionId pageNumber pageSize
    match op.client.DescribeInstances s request with
    | (.error err, s1) => ⟨.returned ([], some err), s1, calls ++ [request]⟩
    | (.ok response, s1) =>
      match convertToECSInstances timeParse response with
      | none => ⟨.panicked, s1, calls ++ [request]⟩
      | some instances =>
        let allInstances := allInstances ++ instances
        match response.Body.bind (fun b => b.TotalCount) with
        | none => ⟨.panicked, s1, calls ++ [request]⟩
        | some totalCount =>
          if stopTest pageNumber pageSize totalCount then
            ⟨.returned (allInstances, none), s1, calls ++ [request]⟩
          else
            ListInstances.loop timeParse op regionId pageSize fuel s1 pageNumber.succ
              allInstances (calls ++ [request])

/-- The method `ECSOperator.ListInstances`. -/
def ListInstances {σ : Type} (timeParse : String → Option Time) (op : ECSOperator σ)
    (_ctx : Context) (regionId : String) (fuel : Nat) (s : σ) :
    Exec σ (List ECSInstance × Option GoError) :=
  let regionId := if regionId = "" then op.region else regionId
  ListInstances.loop timeParse op regionId (I32.ofInt 100) fuel s (I32.ofInt 1) [] []

/-- The conversion loop `resources[i] = inst` shared by the `List...` wrappers. -/
def toResources (instances : List ECSInstance) : List CloudResource :=
  instances.map CloudResource.ecs

/-- The tail of a `List...` wrapper: pass an error on with no resources, else
convert the instances. -/
def wrapList {σ : Type} (e : Exec σ (List ECSInstance × Option GoError)) :
    Exec σ (List CloudResource × Option GoError) :=
  match e.out with
  | .returned (instances, none) => ⟨.returned (toResources instances, none), e.state, e.calls⟩
  | .returned (_, some err) => ⟨.returned ([], some err), e.state, e.calls⟩
  | .panicked => ⟨.panicked, e.state, e.calls⟩
  | .unfinished => ⟨.unfinished, e.state, e.calls⟩

/-- The method `ECSOperator.ListResources`. -/
def ListResources {σ : Type} (timeParse : String → Option Time) (op : ECSOperator σ)
    (ctx : Context) (regionId : String) (fuel : Nat) (s : σ) :
    Exec σ (List CloudResource × Option GoError) :=
  wrapList (ListInstances timeParse op ctx regionId fuel s)

/-- The method `ECSOperator.GetInstanceById`. -/
def GetInstanceById {σ : Type} (timeParse : String → Option Time) (op : ECSOperator σ)
    (_ctx : Context) (regionId instanceId : String) (s : σ) :
    Exec σ (Option ECSInstance × Option GoError) :=
  let regionId := if regionId = "" then op.region else regionId
  let request : DescribeInstancesRequest :=
    { RegionId := some regionId
      PageNumber := none
      PageSize := none
      InstanceIds := some instanceId }
  match op.client.DescribeInstances s request with
  | (.error err, s1) => ⟨.returned (none, some err), s1, [request]⟩
  | (.ok response, s1) =>
    match convertToECSInstances timeParse response with
    | none => ⟨.panicked, s1, [request]⟩
    | some [] =>
      ⟨.returned (none, some (.errorf ("实例 " ++ instanceId ++ " 不存在"))), s1, [request]⟩
    | some (inst :: _) => ⟨.returned (some inst, none), s1, [request]⟩

/-- The method `ECSOperator.GetResourceById`: `return op.GetInstanceById(...)`,
the instance pointer converted to the interface `CloudResource`. The first
component is the interface value returned (`none` would be the nil interface;
the conversion never yields it). -/
def GetResourceById {σ : Type} (timeParse : String → Option Time) (op : ECSOperator σ)
    (ctx : Context) (regionId resourceId : String) (s : σ) :
    Exec σ (Option CloudResource × Option GoError) :=
  let e := GetInstanceById timeParse op ctx regionId resourceId s
  match e.out with
  | .returned (inst, err) =>
    ⟨.returned (some (CloudResource.ofPointer inst), err), e.state, e.calls⟩
  | .panicked => ⟨.panicked, e.state, e.calls⟩
  | .unfinished => ⟨.unfinished, e.state, e.calls⟩

/-- The inner loop of the tag filter (lines 321-326) over the entries of
`tags`: `true` when no entry set `match = false`. -/
def tagsMatch (instTags : GoMap String) : List (Sigma fun _ : String => String) → Bool
  | [] => true
  | ⟨k, v⟩ :: rest => if instTags.index k ≠ v then false else tagsMatch instTags rest

/-- The outer loop of the tag filter (lines 318-330), with the slice
`filteredInstances` built so far. -/
def filterLoop (tags : GoMap String) : List ECSInstance → List ECSInstance → List ECSInstance
  | [], filteredInstances => filteredInstances
  | inst :: rest, filteredInstances =>
    if tagsMatch inst.Tags tags.entries then filterLoop tags rest (filteredInstances ++ [inst])
    else filterLoop tags rest filteredInstances

/-- The tag filter of `ListInstancesByTags` on the aggregated instances. -/
def filterByTags (tags : GoMap String) (allInstances : List ECSInstance) : List ECSInstance :=
  filterLoop tags allInstances []

/-- The `for` loop of `ListInstancesByTags` (lines 293-315); it ends with the
aggregated instances, which the caller then filters. -/
def ListInstancesByTags.loop {σ : Type} (timeParse : String → Option Time)
    (op : ECSOperator σ) (regionId : String) (pageSize : I32) :
    Nat → σ → I32 → List ECSInstance → List DescribeInstancesRequest →
      Exec σ (List ECSInstance × Option GoError)
  | 0, s, _, _, calls => ⟨.unfinished, s, calls⟩
  | fuel + 1, s, pageNumber, allInstances, calls =>
    let request := pageRequest regionId pageNumber pageSize
    match op.client.DescribeInstances s request with
    | (.error err, s1) => ⟨.returned ([], some err), s1, calls ++ [request]⟩
    | (.ok response, s1) =>
      match convertToECSInstances timeParse response with
      | none => ⟨.panicked, s1, calls ++ [request]⟩
      | some instances =>
        let allInstances := allInstances ++ instances
        match response.Body.bind (fun b => b.TotalCount) with
        | none => ⟨.panicked, s1, calls ++ [request]⟩
        | some totalCount =>
          if stopTest pageNumber pageSize totalCount then
            ⟨.returned (allInstances, none), s1, calls ++ [request]⟩
          else
            ListInstancesByTags.loop timeParse op regionId pageSize fuel s1 pageNumber.succ
              allInstances (calls ++ [request])

/-- The method `ECSOperator.ListInstancesByTags`. -/
def ListInstancesByTags {σ : Type} (timeParse : String → Option Time) (op : ECSOperator σ)
    (_ctx : Context) (regionId : String) (tags : GoMap String) (fuel : Nat) (s : σ) :
    Exec σ (List ECSInstance × Option GoError) :=
  let regionId := if regionId = "" then op.region else regionId
  let e := ListInstancesByTags.loop timeParse op regionId (I32.ofInt 100) fuel s (I32.ofInt 1) [] []
  match e.out with
  | .returned (allInstances, none) =>
    ⟨.returned (filterByTags tags allInstances, none), e.state, e.calls⟩
  | _ => e

/-- The method `ECSOperator.ListResourcesByTags`. -/
def ListResourcesByTags {σ : Type} (timeParse : String → Option Time) (op : ECSOperator σ)
    (ctx : Context) (regionId : String) (tags : GoMap String) (fuel : Nat) (s : σ) :
    Exec σ (List CloudResource × Option GoError) :=
  wrapList (ListInstancesByTags timeParse op ctx regionId tags fuel s)

/-- The method `ECSOperator.ListResourcesByTag`. -/
def ListResourcesByTag {σ : Type} (timeParse : String → Option Time) (op : ECSOperator σ)
    (ctx : Context) (regionId tagKey tagValue : String) (fuel : Nat) (s : σ) :
    Exec σ (List CloudResource × Option GoError) :=
  let tags : GoMap String := AList.singleton tagKey tagValue
  wrapList (ListInstancesByTags timeParse op ctx regionId tags fuel s)

/-- The method `ECSOperator.GetInstanceTags`: `return map[string]string{}, nil`. -/
def GetInstanceTags {σ : Type} (_op : ECSOperator σ) (_ctx : Context)
    (_regionId _instanceId : String) (s : σ) : Exec σ (GoMap String × Option GoError) :=
  ⟨.returned (∅, none), s, []⟩

/-- The method `ECSOperator.GetResourceTags`. -/
def GetResourceTags {σ : Type} (op : ECSOperator σ) (ctx : Context)
    (regionId resourceId : String) (s : σ) : Exec σ (GoMap String × Option GoError) :=
  GetInstanceTags op ctx regionId resourceId s

/-- The method `ECSOperator.TagResource`; the result is its `error`. -/
def TagResource {σ : Type} (_op : ECSOperator σ) (_ctx : Context)
    (_regionId _resourceId : String) (_tags : GoMap String) (s : σ) :
    Exec σ (Option GoError) :=
  ⟨.returned (some (.errorf "TagResource not implemented yet")), s, []⟩

/-- The method `ECSOperator.UntagResource`; the result is its `error`. -/
def UntagResource {σ : Type} (_op : ECSOperator σ) (_ctx : Context)
    (_regionId _resourceId : String) (_tagKeys : List String) (s : σ) :
    Exec σ (Option GoError) :=
  ⟨.returned (some (.errorf "UntagResource not implemented yet")), s, []⟩

/-! ## The resource manager (`aliyun/operation/operation.go`) -/

/-- A value of the interface type `ResourceOperation`: `none` is the nil
interface, `some o` an implementation `o`. -/
abbrev ResourceOperation (Op : Type) := Option Op

/-- The struct `ResourceManager` (its `factory` field holds an empty struct).
The field `operations` is a Go map: `none` is the nil map of the zero value
`ResourceManager{}`, `some m` a map that has been made. -/
structure ResourceManager (Op : Type) where
  operations : Option (GoMap (ResourceOperation Op))

/-- The constructor `NewResourceManager`: `operations` is a made, empty map. -/
def NewResourceManager {Op : Type} : ResourceManager Op :=
  { operations := some ∅ }

/-- The zero value `ResourceManager{}`: its `operations` is the nil map. -/
def zeroResourceManager {Op : Type} : ResourceManager Op :=
  { operations := none }

/-- The method `RegisterOperation`: `rm.operations[resourceType] = operation`.
The result is the manager after the call; `none` is the panic of assigning to
an entry of the nil map. -/
def RegisterOperation {Op : Type} (rm : ResourceManager Op) (resourceType : String)
    (operation : ResourceOperation Op) : Option (ResourceManager Op) :=
  match rm.operations with
  | none => none
  | some m => some { operations := some (m.insert resourceType operation) }

/-- The method `GetOperation`: `operation, ok := rm.operations[resourceType]`
(reading the nil map finds nothing). -/
def GetOperation {Op : Type} (rm : ResourceManager Op) (resourceType : String) :
    ResourceOperation Op × Bool :=
  match rm.operations with
  | none => (none, false)
  | some m =>
    match m.lookup resourceType with
    | some operation => (operation, true)
    | none => (none, false)

/-- The method `ListResourceTypes`: the keys met by `range rm.operations`
(Go leaves the order of the iteration open; here it is the order of the
entries; the nil map has none). -/
def ListResourceTypes {Op : Type} (rm : ResourceManager Op) : List String :=
  match rm.operations with
  | none => []
  | some m => m.entries.foldl (fun resourceTypes e => resourceTypes ++ [e.1]) []

/-- The method `IsResourceTypeSupported`. -/
def IsResourceTypeSupported {Op : Type} (rm : ResourceManager Op) (resourceType : String) :
    Bool :=
  match rm.operations with
  | none => false
  | some m =>
    match m.lookup resourceType with
    | some _ => true
    | none => false

/-- A manager after a sequence of `RegisterOperation` calls, oldest first;
`none` when one of the calls panics. -/
def registerAll {Op : Type} (rm : ResourceManager Op) :
    List (String × ResourceOperation Op) → Option (ResourceManager Op)
  | [] => some rm
  | (t, o) :: rest =>
    match RegisterOperation rm t o with
    | none => none
    | some rm1 => registerAll rm1 rest

/-- The map after a sequence of assignments `m[t] = o`, oldest first. -/
def insertAll {Op : Type} (m : GoMap (ResourceOperation Op)) :
    List (String × ResourceOperation Op) → GoMap (ResourceOperation Op)
  | [] => m
  | (t, o) :: rest => insertAll (m.insert t o) rest

/-! ## The configuration manager (`aliyun/config/config.go`) -/

/-- The struct `AccountConfig`. -/
structure AccountConfig where
  Name : String
  AccessKeyId : String
  AccessKeySecret : String
  Regions : List String
  Enabled : Bool
  deriving DecidableEq

/-- The struct `CacheConfig`. -/
structure CacheConfig where
  Enabled : Bool
  ExpireTime : Int
  StorageType : String
  RedisAddress : String
  RedisPassword : String
  RedisDB : Int
  deriving DecidableEq

/-- The struct `Config`. -/
structure Config where
  DefaultRegion : String
  Accounts : List AccountConfig
  Cache : CacheConfig
  ResourceTypes : List String
  deriving DecidableEq

/-- The struct `ConfigManager`; its `config` field is a pointer. -/
structure ConfigManager where
  config : Option Config

/-- The loop of `GetEnabledAccounts` over the accounts, with the slice
`enabledAccounts` built so far. -/
def GetEnabledAccounts.loop : List AccountConfig → List AccountConfig → List AccountConfig
  | [], enabledAccounts => enabledAccounts
  | account :: rest, enabledAccounts =>
    if account.Enabled then GetEnabledAccounts.loop rest (enabledAccounts ++ [account])
    else GetEnabledAccounts.loop rest enabledAccounts

/-- The method `ConfigManager.GetEnabledAccounts`; `none` is the panic of
reading through a nil `config`. -/
def GetEnabledAccounts (m : ConfigManager) : Option (List AccountConfig) :=
  match m.config with
  | none => none
  | some config => some (GetEnabledAccounts.loop config.Accounts [])

/-! ## Specification-side notions used by the theorems -/

/-- The records a response carries (none when the list is absent). -/
def recordsOf (response : DescribeInstancesResponse) : List (Option InstanceRecord) :=
  match response.Body with
  | none => []
  | some body =>
    match body.Instances with
    | none => []
    | some insts => (insts.Instance).getD []

/-- The total count a response reports, when it reports one. -/
def totalCountOf (response : DescribeInstancesResponse) : Option I32 :=
  response.Body.bind (fun b => b.TotalCount)

/-- A record is complete when it is present together with every field the
mapper reads through a pointer. -/
def recordComplete (r : Option InstanceRecord) : Bool :=
  match r with
  | none => false
  | some inst =>
    inst.CreationTime.isSome && inst.InstanceId.isSome && inst.InstanceName.isSome &&
      inst.RegionId.isSome && inst.Status.isSome && inst.InstanceType.isSome &&
      inst.Cpu.isSome && inst.Memory.isSome

/-- A response is well formed when it has a body and only complete records. -/
def wellFormed (response : DescribeInstancesResponse) : Bool :=
  response.Body.isSome && (recordsOf response).all recordComplete

/-- The results of `n` successive `DescribeInstances` calls for the pages
`p`, `p + 1`, ... of a region, from provider state `s`. -/
def fetchPages {σ : Type} (c : Client σ) (regionId : String) (pageSize : I32) :
    Nat → σ → Int → List (Except GoError DescribeInstancesResponse)
  | 0, _, _ => []
  | n + 1, s, p =>
    let r := c.DescribeInstances s (pageRequest regionId (I32.ofInt p) pageSize)
    r.1 :: fetchPages c regionId pageSize n r.2 (p + 1)

/-- The provider state after those `n` calls. -/
def stateAfter {σ : Type} (c : Client σ) (regionId : String) (pageSize : I32) :
    Nat → σ → Int → σ
  | 0, s, _ => s
  | n + 1, s, p =>
    stateAfter c regionId pageSize n
      (c.DescribeInstances s (pageRequest regionId (I32.ofInt p) pageSize)).2 (p + 1)

/-- The requests for the pages `p`, `p + 1`, ..., `p + n - 1` of a region. -/
def pageRequests (regionId : String) (pageSize : I32) : Nat → Int → List DescribeInstancesRequest
  | 0, _ => []
  | n + 1, p => pageRequest regionId (I32.ofInt p) pageSize :: pageRequests regionId pageSize n (p + 1)

/-- The raw records of a fetch result, each passed through the mapper. -/
def pageEntities (timeParse : String → Option Time)
    (r : Except GoError DescribeInstancesResponse) : List (Option ECSInstance) :=
  match r with
  | .ok response => (recordsOf response).map (convertRecord timeParse)
  | .error _ => []

/-- The fetch for page `p` from state `s` lets the paging loop go on: it
succeeds, its response maps without a panic and reports a total count that the
stop test rejects. -/
def pageContinues {σ : Type} (timeParse : String → Option Time) (c : Client σ)
    (regionId : String) (pageSize : I32) (s : σ) (p : Int) : Bool :=
  match (c.DescribeInstances s (pageRequest regionId (I32.ofInt p) pageSize)).1 with
  | .error _ => false
  | .ok response =>
    (convertToECSInstances timeParse response).isSome &&
      match totalCountOf response with
      | none => false
      | some totalCount => !stopTest (I32.ofInt p) pageSize totalCount

/-- The fetches for the `n` pages from `p` on all let the loop go on. -/
def pagesContinue {σ : Type} (timeParse : String → Option Time) (c : Client σ)
    (regionId : String) (pageSize : I32) : Nat → σ → Int → Bool
  | 0, _, _ => true
  | n + 1, s, p =>
    pageContinues timeParse c regionId pageSize s p &&
      pagesContinue timeParse c regionId pageSize n
        (c.DescribeInstances s (pageRequest regionId (I32.ofInt p) pageSize)).2 (p + 1)

/-- The region a call works on: the operator's own for an empty argument. -/
def effectiveRegion {σ : Type} (op : ECSOperator σ) (regionId : String) : String :=
  if regionId = "" then op.region else regionId

/-- An instance passes a tag mapping when indexing its tag map at each key of
the mapping gives the required value. -/
def passesTags (tags : GoMap String) (inst : ECSInstance) : Bool :=
  tags.entries.all (fun e => decide (inst.Tags.index e.1 = e.2))

/-- Specification of the tag listing: run `ListInstances`, then keep the
instances that pass the mapping. -/
def listThenFilter {σ : Type} (timeParse : String → Option Time) (op : ECSOperator σ)
    (ctx : Context) (regionId : String) (tags : GoMap String) (fuel : Nat) (s : σ) :
    Exec σ (List ECSInstance × Option GoError) :=
  let e := ListInstances timeParse op ctx regionId fuel s
  match e.out with
  | .returned (allInstances, none) =>
    ⟨.returned (allInstances.filter (passesTags tags), none), e.state, e.calls⟩
  | _ => e

/-- The instances the loop appends for one fetch result. -/
def pageInstances (timeParse : String → Option Time)
    (r : Except GoError DescribeInstancesResponse) : List ECSInstance :=
  match r with
  | .ok response => (convertToECSInstances timeParse response).getD []
  | .error _ => []

/-! ## Providers used by the worked examples -/

/-- A time parser that rejects every text. -/
def noTimes : String → Option Time := fun _ => none

/-- A complete provider record. -/
def sampleRecord : InstanceRecord :=
  { InstanceId := some "i-0001"
    InstanceName := some "web"
    RegionId := some "cn-hangzhou"
    Status := some "Running"
    InstanceType := some "ecs.g6.large"
    CreationTime := some "2024-01-01T00:00:00Z"
    ExpiredTime := none
    Cpu := some (I32.ofInt 2)
    Memory := some (I32.ofInt 8192)
    Tags := some [("env", "prod")] }

/-- A response with `n` copies of the sample record and the given total. -/
def samplePage (total : I32) (n : Nat) : DescribeInstancesResponse :=
  { Body := some
      { Instances := some { Instance := some (List.replicate n (some sampleRecord)) }
        TotalCount := some total } }

/-- The number of records on page `p` of a listing of `total` records in
pages of 100. -/
def pageLength (total : I32) (p : I32) : Nat :=
  min 100 (total.toInt - (p.toInt - 1) * 100).toNat

/-- A provider that holds `total` instances and serves them in pages of 100;
a request without a page number gets one record. -/
def providerOf (total : I32) : Client Unit :=
  { DescribeInstances := fun s req =>
      match req.PageNumber with
      | none => (.ok (samplePage total 1), s)
      | some p => (.ok (samplePage total (pageLength total p)), s) }

/-- The same provider, except that every request for a page from `k` on
fails. -/
def providerFailingFrom (total : I32) (k : Int) : Client Unit :=
  { DescribeInstances := fun s req =>
      match req.PageNumber with
      | none => (.ok (samplePage total 1), s)
      | some p =>
        if k ≤ p.toInt then (.error (.other "Throttling" "request was throttled"), s)
        else (.ok (samplePage total (pageLength total p)), s) }

/-- An instance tagged `env: prod` and `tier: web`. -/
def taggedInstance : ECSInstance :=
  { InstanceId := "i-0002"
    InstanceName := "api"
    RegionId := "cn-hangzhou"
    Status := "Running"
    InstanceType := "ecs.g6.large"
    PublicIp := []
    PrivateIp := []
    VpcId := ""
    VSwitchId := ""
    CreationTime := Time.zero
    ExpiredTime := Time.zero
    Tags := (AList.singleton "env" "prod").insert "tier" "web"
    CpuCoreCount := 2
    MemorySize := 8192
    OsType := ""
    OsName := ""
    ZoneId := ""
    SecurityGroupIds := []
    HostName := ""
    ImageId := ""
    InstanceChargeType := "" }

/-- The request `GetInstanceById` builds. -/
def byIdRequest (regionId instanceId : String) : DescribeInstancesRequest :=
  { RegionId := some regionId
    PageNumber := none
    PageSize := none
    InstanceIds := some instanceId }

/-- The method `Error()` of an error value: its message. -/
def GoError.Error : GoError → String
  | .errorf msg => msg
  | .other _ msg => msg

/-- A provider for by-id queries: it knows the instance `i-0001` and answers
any other id with an empty list. -/
def byIdProvider : Client Unit :=
  { DescribeInstances := fun s req =>
      if req.InstanceIds = some "i-0001" then (.ok (samplePage (I32.ofInt 1) 1), s)
      else (.ok (samplePage (I32.ofInt 0) 0), s) }

/-- The dynamic type of an error value, which is what a type switch or
`errors.As` can tell of it besides its message: `fmt.Errorf` without `%w`
yields an `*errors.errorString`. -/
inductive ErrorKind where
  | errorString
  | other (code : String)
  deriving DecidableEq

/-- The dynamic type of an error value. -/
def GoError.kind : GoError → ErrorKind
  | .errorf _ => .errorString
  | .other code _ => .other code

/-- A context that is already cancelled: `ctx.Err()` is `context.Canceled`. -/
def cancelledContext : Context := ⟨some (.errorf "context canceled")⟩

/-- A response of one record from which the provider omitted the instance
name. -/
def unnamedRecordPage : DescribeInstancesResponse :=
  { Body := some
      { Instances := some
          { Instance := some [some { sampleRecord with InstanceName := none }] }
        TotalCount := some (I32.ofInt 1) } }

/-- A provider that answers every request with the one-record response whose
record omits the instance name (reported total 1). -/
def unnamedProvider : Client Unit :=
  { DescribeInstances := fun s _ => (.ok unnamedRecordPage, s) }

/-- A provider that reports a total of 250 on every page, each page holding
one record that omits the instance name. -/
def unnamedLargeProvider : Client Unit :=
  { DescribeInstances := fun s _ =>
      (.ok
        { Body := some
            { Instances := some
                { Instance := some [some { sampleRecord with InstanceName := none }] }
              TotalCount := some (I32.ofInt 250) } }, s) }

/-- A response without an instance list. -/
def noListPage : DescribeInstancesResponse :=
  { Body := some { Instances := none, TotalCount := some (I32.ofInt 0) } }

/-- An account for the examples. -/
def sampleAccount (name : String) (enabled : Bool) : AccountConfig :=
  { Name := name
    AccessKeyId := "ak"
    AccessKeySecret := "sk"
    Regions := ["cn-hangzhou", "cn-beijing"]
    Enabled := enabled }

/-- A provider whose reported total changes from page to page: 250 on page 1,
150 from page 2 on. -/
def shrinkingProvider : Client Unit :=
  { DescribeInstances := fun s req =>
      match req.PageNumber with
      | none => (.ok (samplePage (I32.ofInt 250) 1), s)
      | some p =>
        if p.toInt ≤ 1 then (.ok (samplePage (I32.ofInt 250) 100), s)
        else (.ok (samplePage (I32.ofInt 150) 50), s) }

/-! ## Lemmas on machine integers -/

theorem I32.toInt_ofInt (i : Int) (h : -2147483648 ≤ i ∧ i ≤ 2147483647) :
    (I32.ofInt i).toInt = i := by
  show wrapInt 32 i = i
  unfold wrapInt
  norm_num
  omega

theorem I32.eq_of_toInt_eq (a b : I32) (h : a.toInt = b.toInt) : a = b := by
  cases a
  cases b
  simp_all

theorem I32.succ_ofInt (i : Int) : (I32.ofInt i).succ = I32.ofInt (i + 1) := by
  apply I32.eq_of_toInt_eq
  show wrapInt 32 (wrapInt 32 i + 1) = wrapInt 32 (i + 1)
  unfold wrapInt
  norm_num
  omega

theorem stopTest_ofInt (p : Int) (t : I32) (h : 0 ≤ p ∧ p ≤ 2147483647) :
    stopTest (I32.ofInt p) (I32.ofInt 100) t = decide (t.toInt ≤ p * 100) := by
  have hp : (I32.ofInt p).toInt = p := I32.toInt_ofInt p ⟨by omega, h.2⟩
  have hs : (I32.ofInt 100).toInt = 100 := I32.toInt_ofInt 100 (by decide)
  have ht := t.inRange
  unfold stopTest
  rw [hp, hs]
  unfold int64 wrapInt
  norm_num
  omega

/-! ## Lemmas on the mapper -/

theorem convertRecords_spec (timeParse : String → Option Time) :
    ∀ (records : List (Option InstanceRecord)) (ents : List ECSInstance),
      convertRecords timeParse records = some ents →
        ents.map some = records.map (convertRecord timeParse) := by
  intro records
  induction records with
  | nil =>
    intro ents h
    simp [convertRecords] at h
    subst h
    rfl
  | cons r rest ih =>
    intro ents h
    cases hr : convertRecord timeParse r with
    | none => simp [convertRecords, hr] at h
    | some e =>
      cases hrs : convertRecords timeParse rest with
      | none => simp [convertRecords, hr, hrs] at h
      | some es =>
        simp [convertRecords, hr, hrs] at h
        subst h
        simp [hr, ih es hrs]

theorem convertToECSInstances_spec (timeParse : String → Option Time)
    (response : DescribeInstancesResponse) (ents : List ECSInstance)
    (h : convertToECSInstances timeParse response = some ents) :
    ents.map some = (recordsOf response).map (convertRecord timeParse) := by
  unfold convertToECSInstances at h
  unfold recordsOf
  cases hb : response.Body with
  | none => simp [hb] at h
  | some body =>
    cases hi : body.Instances with
    | none =>
      simp [hb, hi] at h
      subst h
      simp [hi]
    | some insts =>
      cases hl : insts.Instance with
      | none =>
        simp [hb, hi, hl] at h
        subst h
        simp [hi, hl]
      | some records =>
        simp [hb, hi, hl] at h
        simpa [hi, hl] using convertRecords_spec timeParse records ents h

theorem convertRecord_complete (timeParse : String → Option Time) (r : Option InstanceRecord)
    (h : recordComplete r = true) : (convertRecord timeParse r).isSome = true := by
  cases r with
  | none => simp [recordComplete] at h
  | some inst =>
    simp only [recordComplete, Bool.and_eq_true, Option.isSome_iff_exists] at h
    obtain ⟨⟨⟨⟨⟨⟨⟨⟨ct, hct⟩, ⟨id, hid⟩⟩, ⟨nm, hnm⟩⟩, ⟨rg, hrg⟩⟩, ⟨st, hst⟩⟩, ⟨ty, hty⟩⟩,
      ⟨cpu, hcpu⟩⟩, ⟨mem, hmem⟩⟩ := h
    simp [convertRecord, hct, hid, hnm, hrg, hst, hty, hcpu, hmem]

theorem convertRecords_complete (timeParse : String → Option Time) :
    ∀ records : List (Option InstanceRecord), records.all recordComplete = true →
      (convertRecords timeParse records).isSome = true := by
  intro records
  induction records with
  | nil => intro _; simp [convertRecords]
  | cons r rest ih =>
    intro h
    simp only [List.all_cons, Bool.and_eq_true] at h
    have h1 := convertRecord_complete timeParse r h.1
    have h2 := ih h.2
    rw [Option.isSome_iff_exists] at h1 h2
    obtain ⟨e, he⟩ := h1
    obtain ⟨es, hes⟩ := h2
    simp [convertRecords, he, hes]

theorem convertToECSInstances_wellFormed (timeParse : String → Option Time)
    (response : DescribeInstancesResponse) (h : wellFormed response = true) :
    (convertToECSInstances timeParse response).isSome = true := by
  unfold wellFormed at h
  simp only [Bool.and_eq_true] at h
  obtain ⟨hb, hr⟩ := h
  unfold recordsOf at hr
  unfold convertToECSInstances
  cases hbody : response.Body with
  | none => simp [hbody] at hb
  | some body =>
    cases hi : body.Instances with
    | none => simp [hi]
    | some insts =>
      cases hl : insts.Instance with
      | none => simp [hi, hl]
      | some records =>
        simp only [hbody, hi, hl, Option.getD_some] at hr
        simpa [hi, hl] using convertRecords_complete timeParse records hr

/-! ## Lemmas on the paging loops -/

theorem ListInstancesByTags.loop_eq {σ : Type} (timeParse : String → Option Time)
    (op : ECSOperator σ) (regionId : String) (pageSize : I32) (fuel : Nat) :
    ∀ (s : σ) (pageNumber : I32) (allInstances : List ECSInstance)
      (calls : List DescribeInstancesRequest),
      ListInstancesByTags.loop timeParse op regionId pageSize fuel s pageNumber allInstances calls
        = ListInstances.loop timeParse op regionId pageSize fuel s pageNumber allInstances calls := by
  induction fuel with
  | zero => intro s pageNumber allInstances calls; rfl
  | succ n ih =>
    intro s pageNumber allInstances calls
    unfold ListInstancesByTags.loop ListInstances.loop
    simp only [ih]

theorem pageInstances_spec (timeParse : String → Option Time)
    (r : Except GoError DescribeInstancesResponse)
    (h : ∀ response, r = .ok response → (convertToECSInstances timeParse response).isSome = true) :
    (pageInstances timeParse r).map some = pageEntities timeParse r := by
  cases r with
  | error e => rfl
  | ok response =>
    have h1 := h response rfl
    rw [Option.isSome_iff_exists] at h1
    obtain ⟨ents, hents⟩ := h1
    simp only [pageInstances, pageEntities, hents, Option.getD_some]
    exact convertToECSInstances_spec timeParse response ents hents

theorem ListInstances.loop_continue {σ : Type} (timeParse : String → Option Time)
    (op : ECSOperator σ) (regionId : String) (pageSize : I32) (fuel : Nat) (s : σ) (p : Int)
    (allInstances : List ECSInstance) (calls : List DescribeInstancesRequest)
    (h : pageContinues timeParse op.client regionId pageSize s p = true) :
    ListInstances.loop timeParse op regionId pageSize (fuel + 1) s (I32.ofInt p) allInstances calls
      = ListInstances.loop timeParse op regionId pageSize fuel
          (op.client.DescribeInstances s (pageRequest regionId (I32.ofInt p) pageSize)).2
          (I32.ofInt (p + 1))
          (allInstances ++ pageInstances timeParse
            (op.client.DescribeInstances s (pageRequest regionId (I32.ofInt p) pageSize)).1)
          (calls ++ [pageRequest regionId (I32.ofInt p) pageSize]) := by
  unfold pageContinues at h
  rw [ListInstances.loop]
  rcases hd : op.client.DescribeInstances s (pageRequest regionId (I32.ofInt p) pageSize)
    with ⟨r, s1⟩
  rw [hd] at h
  cases r with
  | error e => simp at h
  | ok response =>
    simp only [Bool.and_eq_true, Option.isSome_iff_exists] at h
    obtain ⟨⟨ents, hents⟩, htc⟩ := h
    cases ht : totalCountOf response with
    | none => simp [ht] at htc
    | some totalCount =>
      simp only [ht, Bool.not_eq_true', ] at htc
      unfold totalCountOf at ht
      simp [hents, ht, htc, pageInstances, I32.succ_ofInt]

theorem ListInstances.loop_error {σ : Type} (timeParse : String → Option Time)
    (op : ECSOperator σ) (regionId : String) (pageSize : I32) (fuel : Nat) (s : σ)
    (pageNumber : I32) (allInstances : List ECSInstance) (calls : List DescribeInstancesRequest)
    (e : GoError)
    (h : (op.client.DescribeInstances s (pageRequest regionId pageNumber pageSize)).1 = .error e) :
    ListInstances.loop timeParse op regionId pageSize (fuel + 1) s pageNumber allInstances calls
      = ⟨.returned ([], some e),
          (op.client.DescribeInstances s (pageRequest regionId pageNumber pageSize)).2,
          calls ++ [pageRequest regionId pageNumber pageSize]⟩ := by
  rw [ListInstances.loop]
  rcases hd : op.client.DescribeInstances s (pageRequest regionId pageNumber pageSize)
    with ⟨r, s1⟩
  rw [hd] at h
  simp only at h
  subst h
  rfl

theorem ListInstances.loop_stop {σ : Type} (timeParse : String → Option Time)
    (op : ECSOperator σ) (regionId : String) (pageSize : I32) (fuel : Nat) (s : σ)
    (pageNumber : I32) (allInstances : List ECSInstance) (calls : List DescribeInstancesRequest)
    (response : DescribeInstancesResponse) (totalCount : I32)
    (h1 : (op.client.DescribeInstances s (pageRequest regionId pageNumber pageSize)).1
      = .ok response)
    (h2 : (convertToECSInstances timeParse response).isSome = true)
    (h3 : totalCountOf response = some totalCount)
    (h4 : stopTest pageNumber pageSize totalCount = true) :
    ListInstances.loop timeParse op regionId pageSize (fuel + 1) s pageNumber allInstances calls
      = ⟨.returned (allInstances ++ pageInstances timeParse (.ok response), none),
          (op.client.DescribeInstances s (pageRequest regionId pageNumber pageSize)).2,
          calls ++ [pageRequest regionId pageNumber pageSize]⟩ := by
  rw [ListInstances.loop]
  rcases hd : op.client.DescribeInstances s (pageRequest regionId pageNumber pageSize)
    with ⟨r, s1⟩
  rw [hd] at h1
  simp only at h1
  subst h1
  rw [Option.isSome_iff_exists] at h2
  obtain ⟨ents, hents⟩ := h2
  unfold totalCountOf at h3
  simp [hents, h3, h4, pageInstances]

/-- After `n` pages on which the loop goes on, a failing fetch ends the run
with that error, no instances, and `n + 1` requests in all. -/
theorem ListInstances.loop_abort {σ : Type} (timeParse : String → Option Time)
    (op : ECSOperator σ) (regionId : String) (pageSize : I32) (e : GoError) (n : Nat) :
    ∀ (s : σ) (p : Int) (allInstances : List ECSInstance)
      (calls : List DescribeInstancesRequest) (fuel : Nat),
      pagesContinue timeParse op.client regionId pageSize n s p = true →
      (op.client.DescribeInstances (stateAfter op.client regionId pageSize n s p)
        (pageRequest regionId (I32.ofInt (p + n)) pageSize)).1 = .error e →
      n < fuel →
      ListInstances.loop timeParse op regionId pageSize fuel s (I32.ofInt p) allInstances calls
        = ⟨.returned ([], some e), stateAfter op.client regionId pageSize (n + 1) s p,
            calls ++ pageRequests regionId pageSize (n + 1) p⟩ := by
  induction n with
  | zero =>
    intro s p allInstances calls fuel _ herr hfuel
    obtain ⟨f, rfl⟩ : ∃ f, fuel = f + 1 := ⟨fuel - 1, by omega⟩
    simp only [stateAfter, Nat.cast_zero, add_zero] at herr
    rw [ListInstances.loop_error timeParse op regionId pageSize f s _ allInstances calls e herr]
    simp [stateAfter, pageRequests]
  | succ n ih =>
    intro s p allInstances calls fuel hcont herr hfuel
    obtain ⟨f, rfl⟩ : ∃ f, fuel = f + 1 := ⟨fuel - 1, by omega⟩
    simp only [pagesContinue, Bool.and_eq_true] at hcont
    rw [ListInstances.loop_continue timeParse op regionId pageSize f s p allInstances calls hcont.1]
    have hpage : p + ((n + 1 : Nat) : Int) = p + 1 + (n : Int) := by push_cast; ring
    rw [hpage] at herr
    rw [ih _ (p + 1) _ _ f hcont.2 herr (by omega)]
    simp [stateAfter, pageRequests]

/-- After `n` pages on which the loop goes on, a fetch that meets the stop
test ends the run with the instances of all `n + 1` pages, in fetch order. -/
theorem ListInstances.loop_finish {σ : Type} (timeParse : String → Option Time)
    (op : ECSOperator σ) (regionId : String) (pageSize : I32) (n : Nat) :
    ∀ (s : σ) (p : Int) (allInstances : List ECSInstance)
      (calls : List DescribeInstancesRequest) (fuel : Nat)
      (response : DescribeInstancesResponse) (totalCount : I32),
      pagesContinue timeParse op.client regionId pageSize n s p = true →
      (op.client.DescribeInstances (stateAfter op.client regionId pageSize n s p)
        (pageRequest regionId (I32.ofInt (p + n)) pageSize)).1 = .ok response →
      (convertToECSInstances timeParse response).isSome = true →
      totalCountOf response = some totalCount →
      stopTest (I32.ofInt (p + n)) pageSize totalCount = true →
      n < fuel →
      ListInstances.loop timeParse op regionId pageSize fuel s (I32.ofInt p) allInstances calls
        = ⟨.returned (allInstances ++
              ((fetchPages op.client regionId pageSize (n + 1) s p).map
                (pageInstances timeParse)).flatten, none),
            stateAfter op.client regionId pageSize (n + 1) s p,
            calls ++ pageRequests regionId pageSize (n + 1) p⟩ := by
  induction n with
  | zero =>
    intro s p allInstances calls fuel response totalCount _ hok hconv htc hstop hfuel
    obtain ⟨f, rfl⟩ : ∃ f, fuel = f + 1 := ⟨fuel - 1, by omega⟩
    simp only [stateAfter, Nat.cast_zero, add_zero] at hok hstop
    rw [ListInstances.loop_stop timeParse op regionId pageSize f s _ allInstances calls
      response totalCount hok hconv htc hstop]
    simp [stateAfter, pageRequests, fetchPages, hok]
  | succ n ih =>
    intro s p allInstances calls fuel response totalCount hcont hok hconv htc hstop hfuel
    obtain ⟨f, rfl⟩ : ∃ f, fuel = f + 1 := ⟨fuel - 1, by omega⟩
    simp only [pagesContinue, Bool.and_eq_true] at hcont
    rw [ListInstances.loop_continue timeParse op regionId pageSize f s p allInstances calls hcont.1]
    have hpage : p + ((n + 1 : Nat) : Int) = p + 1 + (n : Int) := by push_cast; ring
    rw [hpage] at hok hstop
    rw [ih _ (p + 1) _ _ f response totalCount hcont.2 hok hconv htc hstop (by omega)]
    simp [stateAfter, pageRequests, fetchPages]

theorem pagesContinue_of_total {σ : Type} (timeParse : String → Option Time) (c : Client σ)
    (regionId : String) (N : I32)
    (hfetch : ∀ s req, ∃ response, (c.DescribeInstances s req).1 = .ok response ∧
      totalCountOf response = some N ∧ wellFormed response = true) (n : Nat) :
    ∀ (s : σ) (p : Int), 0 ≤ p →
      (∀ q : Int, p ≤ q → q < p + n → q * 100 < N.toInt) →
      pagesContinue timeParse c regionId (I32.ofInt 100) n s p = true := by
  induction n with
  | zero => intro s p _ _; rfl
  | succ n ih =>
    intro s p hp h
    simp only [pagesContinue, Bool.and_eq_true]
    constructor
    · unfold pageContinues
      obtain ⟨response, hok, htc, hwf⟩ :=
        hfetch s (pageRequest regionId (I32.ofInt p) (I32.ofInt 100))
      have hlt := h p le_rfl (by push_cast; omega)
      have hN := N.inRange
      rw [hok]
      simp only [convertToECSInstances_wellFormed timeParse response hwf, htc, Bool.true_and]
      rw [stopTest_ofInt p N ⟨hp, by omega⟩]
      simp
      omega
    · exact ih _ (p + 1) (by omega) (fun q h1 h2 => h q (by omega) (by push_cast; omega))

theorem fetchPages_entities {σ : Type} (timeParse : String → Option Time) (c : Client σ)
    (regionId : String) (pageSize : I32)
    (hfetch : ∀ s req response, (c.DescribeInstances s req).1 = .ok response →
      (convertToECSInstances timeParse response).isSome = true) (n : Nat) :
    ∀ (s : σ) (p : Int),
      (((fetchPages c regionId pageSize n s p).map (pageInstances timeParse)).flatten).map some
        = ((fetchPages c regionId pageSize n s p).map (pageEntities timeParse)).flatten := by
  induction n with
  | zero => intro s p; rfl
  | succ n ih =>
    intro s p
    simp only [fetchPages, List.map_cons, List.flatten_cons, List.map_append]
    rw [ih, pageInstances_spec timeParse _ (fun response h => hfetch s _ response h)]

theorem pageRequests_length (regionId : String) (pageSize : I32) (n : Nat) :
    ∀ p : Int, (pageRequests regionId pageSize n p).length = n := by
  induction n with
  | zero => intro p; rfl
  | succ n ih => intro p; simp [pageRequests, ih]

theorem wrapList_returned {σ : Type} (e : Exec σ (List ECSInstance × Option GoError))
    (ents : List ECSInstance) (h : e.out = .returned (ents, none)) :
    (wrapList e).out = .returned (toResources ents, none) ∧ (wrapList e).calls = e.calls ∧
      (wrapList e).state = e.state := by
  simp [wrapList, h]

theorem wrapList_error {σ : Type} (e : Exec σ (List ECSInstance × Option GoError))
    (ents : List ECSInstance) (err : GoError) (h : e.out = .returned (ents, some err)) :
    (wrapList e).out = .returned ([], some err) ∧ (wrapList e).calls = e.calls ∧
      (wrapList e).state = e.state := by
  simp [wrapList, h]

/-! ## Pagination -/

/-- Completeness of the paging on well-formed responses. Against a fetcher
that succeeds on every page with well-formed records
and reports the same total count `N ≥ 0` on every page, `ListInstances` (and
`ListResources`, which wraps it) issues exactly `max 1 ⌈N / 100⌉` fetches, for
the pages 1, 2, ... in this order (the page numbers do not wrap), and returns
without error the entities mapped from the records of these pages, one per raw
record, in fetch order and in the order within each page. -/
theorem ListInstances_complete {σ : Type} (timeParse : String → Option Time)
    (op : ECSOperator σ) (ctx : Context) (regionId : String) (N : I32) (hN : 0 ≤ N.toInt)
    (hfetch : ∀ s req, ∃ response, (op.client.DescribeInstances s req).1 = .ok response ∧
      totalCountOf response = some N ∧ wellFormed response = true)
    (fuel : Nat) (hfuel : max 1 ((N.toInt.toNat + 99) / 100) ≤ fuel) (s : σ) :
    ∃ ents : List ECSInstance,
      (ListInstances timeParse op ctx regionId fuel s).out = .returned (ents, none) ∧
      (ListInstances timeParse op ctx regionId fuel s).calls
        = pageRequests (effectiveRegion op regionId) (I32.ofInt 100)
            (max 1 ((N.toInt.toNat + 99) / 100)) 1 ∧
      (ListInstances timeParse op ctx regionId fuel s).calls.length
        = max 1 ((N.toInt.toNat + 99) / 100) ∧
      (∀ i : Nat, i < max 1 ((N.toInt.toNat + 99) / 100) →
        (I32.ofInt (1 + (i : Int))).toInt = 1 + (i : Int)) ∧
      ents.map some
        = ((fetchPages op.client (effectiveRegion op regionId) (I32.ofInt 100)
            (max 1 ((N.toInt.toNat + 99) / 100)) s 1).map (pageEntities timeParse)).flatten ∧
      (ListResources timeParse op ctx regionId fuel s).out
        = .returned (ents.map CloudResource.ecs, none) ∧
      (ListResources timeParse op ctx regionId fuel s).calls
        = (ListInstances timeParse op ctx regionId fuel s).calls := by
  have hNr := N.inRange
  obtain ⟨m, hm⟩ : ∃ m, max 1 ((N.toInt.toNat + 99) / 100) = m + 1 :=
    ⟨max 1 ((N.toInt.toNat + 99) / 100) - 1, by omega⟩
  have hn : ((N.toInt.toNat : Nat) : Int) = N.toInt := Int.toNat_of_nonneg hN
  have hcont := pagesContinue_of_total timeParse op.client (effectiveRegion op regionId) N
    hfetch m s 1 (by omega) (fun q h1 h2 => by omega)
  obtain ⟨response, hok, htc, hwf⟩ := hfetch
    (stateAfter op.client (effectiveRegion op regionId) (I32.ofInt 100) m s 1)
    (pageRequest (effectiveRegion op regionId) (I32.ofInt (1 + (m : Int))) (I32.ofInt 100))
  have hstop : stopTest (I32.ofInt (1 + (m : Int))) (I32.ofInt 100) N = true := by
    rw [stopTest_ofInt _ N ⟨by omega, by omega⟩]
    simp
    omega
  have hrun : ListInstances timeParse op ctx regionId fuel s = _ :=
    ListInstances.loop_finish timeParse op (effectiveRegion op regionId) (I32.ofInt 100) m s 1
      [] [] fuel response N hcont hok (convertToECSInstances_wellFormed timeParse response hwf)
      htc hstop (by omega)
  refine ⟨((fetchPages op.client (effectiveRegion op regionId) (I32.ofInt 100) (m + 1) s 1).map
    (pageInstances timeParse)).flatten, ?_, ?_, ?_, ?_, ?_, ?_, ?_⟩
  · rw [hrun]; simp
  · rw [hrun, hm]; simp
  · rw [hrun, hm]; simp [pageRequests_length]
  · intro i hi
    exact I32.toInt_ofInt _ ⟨by omega, by omega⟩
  · rw [hm]
    exact fetchPages_entities timeParse op.client _ _
      (fun s req response h => by
        obtain ⟨r, hr, _, hwf⟩ := hfetch s req
        rw [hr] at h
        rw [← Except.ok.inj h]
        exact convertToECSInstances_wellFormed timeParse r hwf) (m + 1) s 1
  · have h := wrapList_returned (ListInstances timeParse op ctx regionId fuel s) _
      (by rw [hrun])
    simpa [ListResources, toResources] using h.1
  · simp [ListResources, wrapList]
    split <;> rfl

/-- C2. If the first `j - 1` page fetches succeed without meeting the stop
test and the `j`-th fetch fails with error `e`, then `ListInstances`,
`ListResources` and `ListInstancesByTags` return the error `e` with no entity
at all, and the run issued exactly the `j` requests for pages 1 to `j`. -/
theorem ListInstances_abort_on_error {σ : Type} (timeParse : String → Option Time)
    (op : ECSOperator σ) (ctx : Context) (regionId : String) (tags : GoMap String)
    (j : Nat) (hj : 1 ≤ j) (e : GoError) (s : σ)
    (hcont : pagesContinue timeParse op.client (effectiveRegion op regionId) (I32.ofInt 100)
      (j - 1) s 1 = true)
    (herr : (op.client.DescribeInstances
        (stateAfter op.client (effectiveRegion op regionId) (I32.ofInt 100) (j - 1) s 1)
        (pageRequest (effectiveRegion op regionId) (I32.ofInt (j : Int)) (I32.ofInt 100))).1
      = .error e)
    (fuel : Nat) (hfuel : j ≤ fuel) :
    (ListInstances timeParse op ctx regionId fuel s).out = .returned ([], some e) ∧
    (ListInstances timeParse op ctx regionId fuel s).calls
      = pageRequests (effectiveRegion op regionId) (I32.ofInt 100) j 1 ∧
    (ListInstances timeParse op ctx regionId fuel s).calls.length = j ∧
    (ListResources timeParse op ctx regionId fuel s).out = .returned ([], some e) ∧
    (ListResources timeParse op ctx regionId fuel s).calls
      = pageRequests (effectiveRegion op regionId) (I32.ofInt 100) j 1 ∧
    (ListInstancesByTags timeParse op ctx regionId tags fuel s).out = .returned ([], some e) ∧
    (ListInstancesByTags timeParse op ctx regionId tags fuel s).calls
      = pageRequests (effectiveRegion op regionId) (I32.ofInt 100) j 1 := by
  obtain ⟨m, rfl⟩ : ∃ m, j = m + 1 := ⟨j - 1, by omega⟩
  simp only [Nat.add_sub_cancel] at hcont herr
  have hpage : (((m + 1 : Nat)) : Int) = 1 + (m : Int) := by push_cast; ring
  rw [hpage] at herr
  have hloop := ListInstances.loop_abort timeParse op (effectiveRegion op regionId)
    (I32.ofInt 100) e m s 1 [] [] fuel hcont herr (by omega)
  have hrun : ListInstances timeParse op ctx regionId fuel s = _ := hloop
  have htag : ListInstancesByTags timeParse op ctx regionId tags fuel s
      = ⟨.returned ([], some e),
          stateAfter op.client (effectiveRegion op regionId) (I32.ofInt 100) (m + 1) s 1,
          [] ++ pageRequests (effectiveRegion op regionId) (I32.ofInt 100) (m + 1) 1⟩ := by
    unfold ListInstancesByTags
    simp only [ListInstancesByTags.loop_eq]
    have hloop2 : ListInstances.loop timeParse op (if regionId = "" then op.region else regionId)
        (I32.ofInt 100) fuel s (I32.ofInt 1) [] [] = _ := hloop
    rw [hloop2]
  have hres := wrapList_error (ListInstances timeParse op ctx regionId fuel s) [] e
    (by rw [hrun])
  refine ⟨?_, ?_, ?_, ?_, ?_, ?_, ?_⟩
  · rw [hrun]
  · rw [hrun]; simp
  · rw [hrun]; simp [pageRequests_length]
  · exact hres.1
  · have h2 := hres.2.1
    have h3 : (ListInstances timeParse op ctx regionId fuel s).calls
        = pageRequests (effectiveRegion op regionId) (I32.ofInt 100) (m + 1) 1 := by
      rw [hrun]; simp
    rw [h3] at h2
    exact h2
  · rw [htag]
  · rw [htag]; simp

theorem providerOf_wellFormed (total : I32) (s : Unit) (req : DescribeInstancesRequest) :
    ∃ response, ((providerOf total).DescribeInstances s req).1 = .ok response ∧
      totalCountOf response = some total ∧ wellFormed response = true := by
  cases hp : req.PageNumber with
  | none =>
    refine ⟨samplePage total 1, by simp [providerOf, hp], rfl, ?_⟩
    simp [wellFormed, samplePage, recordsOf, recordComplete, sampleRecord]
  | some p =>
    refine ⟨samplePage total (pageLength total p), by simp [providerOf, hp], rfl, ?_⟩
    simp [wellFormed, samplePage, recordsOf, recordComplete, sampleRecord]

set_option maxRecDepth 100000

/-- Completeness at the provider of 250 instances: three fetches, for the
pages 1, 2 and 3, and 250 entities. -/
theorem ListInstances_complete_witness :
    ∃ ents : List ECSInstance,
      (ListInstances noTimes (NewECSOperator (providerOf (I32.ofInt 250)) "cn-hangzhou")
        ⟨none⟩ "" 3 ()).out = .returned (ents, none) ∧
      (ListInstances noTimes (NewECSOperator (providerOf (I32.ofInt 250)) "cn-hangzhou")
        ⟨none⟩ "" 3 ()).calls
        = [pageRequest "cn-hangzhou" (I32.ofInt 1) (I32.ofInt 100),
           pageRequest "cn-hangzhou" (I32.ofInt 2) (I32.ofInt 100),
           pageRequest "cn-hangzhou" (I32.ofInt 3) (I32.ofInt 100)] ∧
      ents.length = 250 := by
  obtain ⟨ents, h1, h2, _, _, h5, _, _⟩ :=
    ListInstances_complete noTimes (NewECSOperator (providerOf (I32.ofInt 250)) "cn-hangzhou")
      ⟨none⟩ "" (I32.ofInt 250) (by decide) (providerOf_wellFormed (I32.ofInt 250))
      3 (by decide) ()
  refine ⟨ents, h1, ?_, ?_⟩
  · rw [h2]; rfl
  · have h := congrArg List.length h5
    rw [List.length_map] at h
    rw [h]
    decide

/-- The empty listing: a provider that reports a total of 0 is asked for page
1 only, and the result is empty and without error. -/
theorem ListInstances_empty_total :
    (ListInstances noTimes (NewECSOperator (providerOf (I32.ofInt 0)) "cn-hangzhou")
        ⟨none⟩ "" 1 ()).out = .returned ([], none) ∧
    (ListInstances noTimes (NewECSOperator (providerOf (I32.ofInt 0)) "cn-hangzhou")
        ⟨none⟩ "" 1 ()).calls = [pageRequest "cn-hangzhou" (I32.ofInt 1) (I32.ofInt 100)] :=
  ⟨rfl, rfl⟩

/-- C2 at a provider whose second page fails: the error comes back with no
entity, after the requests for pages 1 and 2 only. -/
theorem ListInstances_abort_on_error_witness :
    (ListInstances noTimes
        (NewECSOperator (providerFailingFrom (I32.ofInt 250) 2) "cn-hangzhou")
        ⟨none⟩ "" 5 ()).out
      = .returned ([], some (.other "Throttling" "request was throttled")) ∧
    (ListInstances noTimes
        (NewECSOperator (providerFailingFrom (I32.ofInt 250) 2) "cn-hangzhou")
        ⟨none⟩ "" 5 ()).calls
      = [pageRequest "cn-hangzhou" (I32.ofInt 1) (I32.ofInt 100),
         pageRequest "cn-hangzhou" (I32.ofInt 2) (I32.ofInt 100)] := by
  have h := ListInstances_abort_on_error noTimes
    (NewECSOperator (providerFailingFrom (I32.ofInt 250) 2) "cn-hangzhou") ⟨none⟩ "" ∅ 2
    (by decide) (.other "Throttling" "request was throttled") () (by decide) rfl 5
    (by decide)
  exact ⟨h.1, h.2.1⟩

/-! ## The tag filter -/

theorem tagsMatch_eq_all (instTags : GoMap String) :
    ∀ es : List (Sigma fun _ : String => String),
      tagsMatch instTags es = es.all (fun e => decide (instTags.index e.1 = e.2)) := by
  intro es
  induction es with
  | nil => rfl
  | cons e rest ih =>
    obtain ⟨k, v⟩ := e
    by_cases h : instTags.index k = v <;> simp [tagsMatch, h, ih]

theorem tagsMatch_eq_passesTags (tags : GoMap String) (inst : ECSInstance) :
    tagsMatch inst.Tags tags.entries = passesTags tags inst := by
  rw [tagsMatch_eq_all]
  rfl

theorem filterLoop_eq (tags : GoMap String) :
    ∀ (allInstances filteredInstances : List ECSInstance),
      filterLoop tags allInstances filteredInstances
        = filteredInstances ++ allInstances.filter (passesTags tags) := by
  intro allInstances
  induction allInstances with
  | nil => intro filteredInstances; simp [filterLoop]
  | cons inst rest ih =>
    intro filteredInstances
    by_cases h : passesTags tags inst = true
    · simp [filterLoop, tagsMatch_eq_passesTags, h, ih]
    · simp [filterLoop, tagsMatch_eq_passesTags, h, ih]

theorem filterByTags_eq (tags : GoMap String) (allInstances : List ECSInstance) :
    filterByTags tags allInstances = allInstances.filter (passesTags tags) := by
  simp [filterByTags, filterLoop_eq]

theorem passesTags_iff (tags : GoMap String) (inst : ECSInstance) :
    passesTags tags inst = true ↔
      ∀ k v, tags.lookup k = some v → inst.Tags.index k = v := by
  unfold passesTags
  simp only [List.all_eq_true, decide_eq_true_eq]
  constructor
  · intro h k v hkv
    have hmem : (⟨k, v⟩ : Sigma fun _ : String => String) ∈ tags.entries :=
      AList.mem_lookup_iff.mp (by simp [hkv])
    exact h ⟨k, v⟩ hmem
  · intro h e he
    obtain ⟨k, v⟩ := e
    have hl : v ∈ tags.lookup k := AList.mem_lookup_iff.mpr he
    exact h k v (by simpa using hl)

theorem filterByTags_empty (allInstances : List ECSInstance) :
    filterByTags (∅ : GoMap String) allInstances = allInstances := by
  rw [filterByTags_eq]
  apply List.filter_eq_self.mpr
  intro inst _
  rfl

/-- The worked example of the specification: an instance tagged `env: prod`,
`tier: web` is kept by `env: prod`, dropped by `env: prod, tier: db`, and kept
by the empty mapping. -/
theorem filterByTags_examples :
    filterByTags (AList.singleton "env" "prod") [taggedInstance] = [taggedInstance] ∧
    filterByTags ((AList.singleton "env" "prod").insert "tier" "db") [taggedInstance] = [] ∧
    filterByTags ∅ [taggedInstance] = [taggedInstance] := by
  exact ⟨rfl, rfl, rfl⟩

/-- C3, at the input where the code departs from it: the instances aggregated
from a one-record page carry no `owner` tag, and the tag filter keeps every
one of them for the mapping `owner: ""`. -/
theorem filterByTags_keeps_missing_key :
    ∃ allInstances : List ECSInstance,
      convertToECSInstances noTimes (samplePage (I32.ofInt 1) 1) = some allInstances ∧
      allInstances ≠ [] ∧
      (∀ inst ∈ allInstances, inst.Tags.lookup "owner" = none) ∧
      filterByTags (AList.singleton "owner" "") allInstances = allInstances := by
  refine ⟨_, rfl, ?_, ?_, rfl⟩
  · decide
  · decide

/-- C4, at the input where the code departs from it: listing by the mapping
`env: ""` returns the one instance of the provider, whose tag map has no key
`env`. -/
theorem ListInstancesByTags_keeps_untagged :
    ∃ inst : ECSInstance,
      (ListInstancesByTags noTimes (NewECSOperator (providerOf (I32.ofInt 1)) "cn-hangzhou")
        ⟨none⟩ "" (AList.singleton "env" "") 1 ()).out = .returned ([inst], none) ∧
      inst.Tags.lookup "env" = none := by
  refine ⟨_, rfl, ?_⟩
  decide

theorem ListInstancesByTags_eq_listThenFilter {σ : Type} (timeParse : String → Option Time)
    (op : ECSOperator σ) (ctx : Context) (regionId : String) (tags : GoMap String)
    (fuel : Nat) (s : σ) :
    ListInstancesByTags timeParse op ctx regionId tags fuel s
      = listThenFilter timeParse op ctx regionId tags fuel s := by
  unfold ListInstancesByTags listThenFilter ListInstances
  simp only [ListInstancesByTags.loop_eq, filterByTags_eq]

/-- C5. With the empty tag mapping, `ListResourcesByTags` is `ListResources`:
the same outcome (the same error, or the same resources in the same order),
the same requests and the same provider state. -/
theorem ListResourcesByTags_empty {σ : Type} (timeParse : String → Option Time)
    (op : ECSOperator σ) (ctx : Context) (regionId : String) (fuel : Nat) (s : σ) :
    ListResourcesByTags timeParse op ctx regionId ∅ fuel s
      = ListResources timeParse op ctx regionId fuel s := by
  have h : ListInstancesByTags timeParse op ctx regionId ∅ fuel s
      = ListInstances timeParse op ctx regionId fuel s := by
    rw [ListInstancesByTags_eq_listThenFilter]
    unfold listThenFilter
    rcases ListInstances timeParse op ctx regionId fuel s with ⟨out, st, calls⟩
    cases out with
    | returned a =>
      rcases a with ⟨l, _ | err⟩
      · have hl : l.filter (passesTags ∅) = l :=
          List.filter_eq_self.mpr (fun inst _ => rfl)
        simp [hl]
      · rfl
    | panicked => rfl
    | unfinished => rfl
  unfold ListResourcesByTags ListResources
  rw [h]

/-- C6. `ListInstancesByTags` is "run `ListInstances`, then filter": it issues
the same requests and leaves the same provider state, it returns an error
exactly when `ListInstances` does and then the same one, it panics or runs out
of fuel exactly when `ListInstances` does, and when `ListInstances` returns
the instances `all` it returns those of `all` that pass the tag mapping, a
sub-sequence of `all` in the same relative order. -/
theorem ListInstancesByTags_refines {σ : Type} (timeParse : String → Option Time)
    (op : ECSOperator σ) (ctx : Context) (regionId : String) (tags : GoMap String)
    (fuel : Nat) (s : σ) :
    ListInstancesByTags timeParse op ctx regionId tags fuel s
      = listThenFilter timeParse op ctx regionId tags fuel s ∧
    (ListInstancesByTags timeParse op ctx regionId tags fuel s).calls
      = (ListInstances timeParse op ctx regionId fuel s).calls ∧
    (ListInstancesByTags timeParse op ctx regionId tags fuel s).state
      = (ListInstances timeParse op ctx regionId fuel s).state ∧
    (∀ l err, (ListInstancesByTags timeParse op ctx regionId tags fuel s).out
        = .returned (l, some err) ↔
      (ListInstances timeParse op ctx regionId fuel s).out = .returned (l, some err)) ∧
    ((ListInstancesByTags timeParse op ctx regionId tags fuel s).out = .panicked ↔
      (ListInstances timeParse op ctx regionId fuel s).out = .panicked) ∧
    ((ListInstancesByTags timeParse op ctx regionId tags fuel s).out = .unfinished ↔
      (ListInstances timeParse op ctx regionId fuel s).out = .unfinished) ∧
    (∀ all, (ListInstances timeParse op ctx regionId fuel s).out = .returned (all, none) →
      (ListInstancesByTags timeParse op ctx regionId tags fuel s).out
        = .returned (all.filter (passesTags tags), none) ∧
      (all.filter (passesTags tags)).Sublist all) ∧
    (∀ kept, (ListInstancesByTags timeParse op ctx regionId tags fuel s).out
        = .returned (kept, none) →
      ∃ all, (ListInstances timeParse op ctx regionId fuel s).out = .returned (all, none)) := by
  refine ⟨ListInstancesByTags_eq_listThenFilter timeParse op ctx regionId tags fuel s, ?_⟩
  rw [ListInstancesByTags_eq_listThenFilter]
  unfold listThenFilter
  rcases ListInstances timeParse op ctx regionId fuel s with ⟨out, st, calls⟩
  cases out with
  | returned a =>
    rcases a with ⟨l, _ | err⟩
    · simp [List.filter_sublist]
    · simp
  | panicked => simp
  | unfinished => simp

/-! ## The resource manager -/

theorem ListResourceTypes_eq_keys {Op : Type} (m : GoMap (ResourceOperation Op)) :
    ListResourceTypes (⟨some m⟩ : ResourceManager Op) = m.keys := by
  have h : ∀ (es : List (Sigma fun _ : String => ResourceOperation Op)) (acc : List String),
      es.foldl (fun resourceTypes e => resourceTypes ++ [e.1]) acc = acc ++ es.map Sigma.fst := by
    intro es
    induction es with
    | nil => intro acc; simp
    | cons e rest ih => intro acc; simp [ih]
  simp [ListResourceTypes, h, AList.keys, List.keys]

theorem registerAll_of_map {Op : Type} :
    ∀ (regs : List (String × ResourceOperation Op)) (m : GoMap (ResourceOperation Op)),
      registerAll (⟨some m⟩ : ResourceManager Op) regs = some ⟨some (insertAll m regs)⟩ := by
  intro regs
  induction regs with
  | nil => intro m; rfl
  | cons x rest ih =>
    intro m
    obtain ⟨t1, o⟩ := x
    simp [registerAll, RegisterOperation, insertAll, ih]

theorem insertAll_append {Op : Type} :
    ∀ (l1 l2 : List (String × ResourceOperation Op)) (m : GoMap (ResourceOperation Op)),
      insertAll m (l1 ++ l2) = insertAll (insertAll m l1) l2 := by
  intro l1
  induction l1 with
  | nil => intro l2 m; rfl
  | cons x rest ih =>
    intro l2 m
    obtain ⟨t1, o⟩ := x
    simp [insertAll, ih]

theorem lookup_insertAll_of_not_mem {Op : Type} (t : String) :
    ∀ (regs : List (String × ResourceOperation Op)) (m : GoMap (ResourceOperation Op)),
      (∀ x ∈ regs, x.1 ≠ t) →
      (insertAll m regs).lookup t = m.lookup t := by
  intro regs
  induction regs with
  | nil => intro m _; rfl
  | cons x rest ih =>
    intro m h
    obtain ⟨t1, o⟩ := x
    have hne : t ≠ t1 := fun heq => h (t1, o) (by simp) heq.symm
    rw [insertAll, ih _ (fun y hy => h y (by simp [hy]))]
    simp [AList.lookup_insert_ne hne]

theorem mem_insertAll {Op : Type} (t : String) :
    ∀ (regs : List (String × ResourceOperation Op)) (m : GoMap (ResourceOperation Op)),
      t ∈ insertAll m regs ↔ t ∈ m ∨ t ∈ regs.map Prod.fst := by
  intro regs
  induction regs with
  | nil => intro m; simp [insertAll]
  | cons x rest ih =>
    intro m
    obtain ⟨t1, o⟩ := x
    rw [insertAll, ih]
    simp only [AList.mem_insert, List.map_cons, List.mem_cons]
    tauto

/-- C7, as stated, fails on the zero-value manager `ResourceManager{}`, whose
map is nil: `RegisterOperation` panics there, so do the two registrations of
`ECS`, and `GetOperation("ECS")` reports `found = false`. -/
theorem RegisterOperation_panics_on_zero_value :
    RegisterOperation (zeroResourceManager : ResourceManager String) "ECS" (some "opA") = none ∧
    registerAll (zeroResourceManager : ResourceManager String)
      [("ECS", some "opA"), ("ECS", some "opB")] = none ∧
    GetOperation (zeroResourceManager : ResourceManager String) "ECS" = (none, false) :=
  ⟨rfl, rfl, rfl⟩

/-- C7, amended. On every manager whose map has been made (as on every
manager from `NewResourceManager`): the registrations `before`, then
`RegisterOperation(t, a)`, then `between`, then `RegisterOperation(t, b)`,
then registrations `after` of other types all complete, the map of the
resulting manager is made, and `GetOperation(t)` on it returns `b` with
`found = true`. -/
theorem GetOperation_last_registration_wins {Op : Type} (rm : ResourceManager Op) (t : String)
    (a b : ResourceOperation Op)
    (before between after : List (String × ResourceOperation Op))
    (hmade : rm.operations.isSome = true)
    (hafter : ∀ x ∈ after, x.1 ≠ t) :
    (NewResourceManager : ResourceManager Op).operations.isSome = true ∧
    ∃ rm1 : ResourceManager Op,
      registerAll rm (before ++ [(t, a)] ++ between ++ [(t, b)] ++ after) = some rm1 ∧
      rm1.operations.isSome = true ∧
      GetOperation rm1 t = (b, true) := by
  obtain ⟨ops⟩ := rm
  cases ops with
  | none => simp at hmade
  | some m =>
    refine ⟨rfl, _, registerAll_of_map _ m, rfl, ?_⟩
    simp only [GetOperation]
    rw [insertAll_append, lookup_insertAll_of_not_mem t after _ hafter, insertAll_append]
    simp [insertAll]

/-- C7 amended, on a fresh manager: `ECS` registered twice, other types
around. -/
theorem GetOperation_last_registration_wins_witness :
    ∃ rm1 : ResourceManager String,
      registerAll NewResourceManager
        ([("VPC", some "vpcOp")] ++ [("ECS", some "opA")] ++ [("SLB", some "slbOp")]
          ++ [("ECS", some "opB")] ++ [("ALB", some "albOp"), ("NLB", none)]) = some rm1 ∧
      rm1.operations.isSome = true ∧
      GetOperation rm1 "ECS" = (some "opB", true) :=
  (GetOperation_last_registration_wins NewResourceManager "ECS" (some "opA") (some "opB")
    [("VPC", some "vpcOp")] [("SLB", some "slbOp")] [("ALB", some "albOp"), ("NLB", none)]
    rfl (by decide)).2

/-- C8. For a type that no registration of the sequence names, `GetOperation`
returns the pair (no operation, `found = false`), an ordinary value of the
total function; so it does for every type on a fresh manager. The
registrations on a fresh manager all complete. -/
theorem GetOperation_unregistered {Op : Type} (regs : List (String × ResourceOperation Op))
    (t : String) (h : ∀ x ∈ regs, x.1 ≠ t) :
    (∃ rm : ResourceManager Op, registerAll NewResourceManager regs = some rm ∧
      GetOperation rm t = (none, false)) ∧
    GetOperation (NewResourceManager : ResourceManager Op) t = (none, false) := by
  refine ⟨⟨_, registerAll_of_map regs ∅, ?_⟩, ?_⟩
  · simp only [GetOperation]
    rw [lookup_insertAll_of_not_mem t regs _ h]
    simp
  · simp [GetOperation, NewResourceManager]

/-- C8 at the type `unknown` after two registrations. -/
theorem GetOperation_unregistered_witness :
    (∃ rm : ResourceManager String,
      registerAll NewResourceManager [("ECS", some "opA"), ("ECS", some "opB")] = some rm ∧
      GetOperation rm "unknown" = (none, false)) ∧
    GetOperation (NewResourceManager : ResourceManager String) "unknown" = (none, false) :=
  GetOperation_unregistered [("ECS", some "opA"), ("ECS", some "opB")] "unknown" (by decide)

/-- C9. Any sequence of registrations on a fresh manager completes, and on
the resulting manager a type is in the list of `ListResourceTypes` iff it was
registered, iff `IsResourceTypeSupported` holds of it, iff `GetOperation`
finds it; and the list has no type twice. -/
theorem ListResourceTypes_exact {Op : Type} (regs : List (String × ResourceOperation Op))
    (t : String) :
    ∃ rm : ResourceManager Op, registerAll NewResourceManager regs = some rm ∧
      (t ∈ ListResourceTypes rm ↔ t ∈ regs.map Prod.fst) ∧
      (t ∈ ListResourceTypes rm ↔ IsResourceTypeSupported rm t = true) ∧
      (IsResourceTypeSupported rm t = true ↔ (GetOperation rm t).2 = true) ∧
      (ListResourceTypes rm).Nodup ∧
      (ListResourceTypes rm).count t ≤ 1 := by
  have hnodup : (ListResourceTypes (⟨some (insertAll ∅ regs)⟩ : ResourceManager Op)).Nodup := by
    rw [ListResourceTypes_eq_keys]
    exact AList.keys_nodup _
  refine ⟨_, registerAll_of_map regs ∅, ?_, ?_, ?_, hnodup,
    List.nodup_iff_count_le_one.mp hnodup t⟩
  · rw [ListResourceTypes_eq_keys, ← AList.mem_keys, mem_insertAll]
    simp
  · rw [ListResourceTypes_eq_keys, ← AList.mem_keys, ← AList.lookup_isSome]
    simp only [IsResourceTypeSupported]
    cases (insertAll (∅ : GoMap (ResourceOperation Op)) regs).lookup t <;> simp
  · simp only [IsResourceTypeSupported, GetOperation]
    cases (insertAll (∅ : GoMap (ResourceOperation Op)) regs).lookup t <;> simp

/-! ## Lookup by id -/

theorem convertToECSInstances_of_no_records (timeParse : String → Option Time)
    (response : DescribeInstancesResponse) (hb : response.Body.isSome = true)
    (hr : recordsOf response = []) : convertToECSInstances timeParse response = some [] := by
  unfold recordsOf at hr
  unfold convertToECSInstances
  cases hbody : response.Body with
  | none => simp [hbody] at hb
  | some body =>
    cases hi : body.Instances with
    | none => simp [hi]
    | some insts =>
      cases hl : insts.Instance with
      | none => simp [hi, hl]
      | some records =>
        simp only [hbody, hi, hl, Option.getD_some] at hr
        simp [hi, hl, hr, convertRecords]

theorem convertToECSInstances_body (timeParse : String → Option Time)
    (response : DescribeInstancesResponse) (ents : List ECSInstance)
    (h : convertToECSInstances timeParse response = some ents) :
    response.Body.isSome = true := by
  unfold convertToECSInstances at h
  cases hbody : response.Body with
  | none => simp [hbody] at h
  | some body => rfl

theorem GetInstanceById_eq {σ : Type} (timeParse : String → Option Time) (op : ECSOperator σ)
    (ctx : Context) (regionId instanceId : String) (s : σ) :
    GetInstanceById timeParse op ctx regionId instanceId s =
      match op.client.DescribeInstances s (byIdRequest (effectiveRegion op regionId) instanceId) with
      | (.error err, s1) =>
        ⟨.returned (none, some err), s1, [byIdRequest (effectiveRegion op regionId) instanceId]⟩
      | (.ok response, s1) =>
        match convertToECSInstances timeParse response with
        | none => ⟨.panicked, s1, [byIdRequest (effectiveRegion op regionId) instanceId]⟩
        | some [] =>
          ⟨.returned (none, some (.errorf ("实例 " ++ instanceId ++ " 不存在"))), s1,
            [byIdRequest (effectiveRegion op regionId) instanceId]⟩
        | some (inst :: _) =>
          ⟨.returned (some inst, none), s1, [byIdRequest (effectiveRegion op regionId) instanceId]⟩ :=
  rfl

/-- C10, as stated, fails. Asked for `i-0404`, which has no record, the call
returns an error of the plain kind of every `fmt.Errorf` value, the kind of
the error of `TagResource`, not of a not-found kind of its own; and when the
query succeeds with one record that omits the instance name, the call returns
neither an error nor a record: it panics. -/
theorem GetInstanceById_not_found_kind_and_panic :
    (∃ notFound unimplemented : GoError,
      (GetInstanceById noTimes (NewECSOperator byIdProvider "cn-hangzhou") ⟨none⟩ ""
        "i-0404" ()).out = .returned (none, some notFound) ∧
      (TagResource (NewECSOperator byIdProvider "cn-hangzhou") ⟨none⟩ "" "i-0404" ∅ ()).out
        = .returned (some unimplemented) ∧
      notFound.kind = unimplemented.kind) ∧
    (unnamedProvider.DescribeInstances () (byIdRequest "cn-hangzhou" "i-0001")).1
      = .ok unnamedRecordPage ∧
    (recordsOf unnamedRecordPage).length = 1 ∧
    (GetInstanceById noTimes (NewECSOperator unnamedProvider "cn-hangzhou") ⟨none⟩ ""
      "i-0001" ()).out = .panicked ∧
    (GetResourceById noTimes (NewECSOperator unnamedProvider "cn-hangzhou") ⟨none⟩ ""
      "i-0001" ()).out = .panicked :=
  ⟨⟨_, _, rfl, rfl, rfl⟩, rfl, rfl, rfl, rfl⟩

/-- C10, amended. `GetInstanceById` (and `GetResourceById`, which wraps it)
issues one by-id request. When the request fails with `e` the call returns
`e`; when it succeeds with a response that has a body and zero records the
call returns the error `实例 <id> 不存在` ("instance <id> does not exist"),
whose message contains the requested id and whose kind is the plain one of
every `fmt.Errorf` value; the call returns an error exactly in these two
cases. On both error paths `GetInstanceById` returns the nil instance, and
`GetResourceById` a non-nil `CloudResource` holding that nil pointer. When the
request succeeds with a well-formed response of at least one record the call
returns the first mapped record and no error. -/
theorem GetInstanceById_outcomes {σ : Type} (timeParse : String → Option Time)
    (op : ECSOperator σ) (ctx : Context) (regionId instanceId : String) (s : σ) :
    (GetInstanceById timeParse op ctx regionId instanceId s).calls
      = [byIdRequest (effectiveRegion op regionId) instanceId] ∧
    (∀ e, (op.client.DescribeInstances s
        (byIdRequest (effectiveRegion op regionId) instanceId)).1 = .error e →
      (GetInstanceById timeParse op ctx regionId instanceId s).out = .returned (none, some e) ∧
      (GetResourceById timeParse op ctx regionId instanceId s).out
        = .returned (some .nilECS, some e)) ∧
    (∀ response, (op.client.DescribeInstances s
        (byIdRequest (effectiveRegion op regionId) instanceId)).1 = .ok response →
      response.Body.isSome = true → recordsOf response = [] →
      (GetInstanceById timeParse op ctx regionId instanceId s).out
        = .returned (none, some (.errorf ("实例 " ++ instanceId ++ " 不存在"))) ∧
      (GetResourceById timeParse op ctx regionId instanceId s).out
        = .returned (some .nilECS, some (.errorf ("实例 " ++ instanceId ++ " 不存在"))) ∧
      (GoError.errorf ("实例 " ++ instanceId ++ " 不存在")).kind = ErrorKind.errorString ∧
      ∃ pre post, (GoError.errorf ("实例 " ++ instanceId ++ " 不存在")).Error
        = pre ++ instanceId ++ post) ∧
    (∀ response first rest, (op.client.DescribeInstances s
        (byIdRequest (effectiveRegion op regionId) instanceId)).1 = .ok response →
      wellFormed response = true → recordsOf response = first :: rest →
      ∃ inst, convertRecord timeParse first = some inst ∧
        (GetInstanceById timeParse op ctx regionId instanceId s).out
          = .returned (some inst, none) ∧
        (GetResourceById timeParse op ctx regionId instanceId s).out
          = .returned (some (.ecs inst), none)) ∧
    ((∃ v err, (GetInstanceById timeParse op ctx regionId instanceId s).out
        = .returned (v, some err)) ↔
      ((∃ e, (op.client.DescribeInstances s
          (byIdRequest (effectiveRegion op regionId) instanceId)).1 = .error e) ∨
       ∃ response, (op.client.DescribeInstances s
          (byIdRequest (effectiveRegion op regionId) instanceId)).1 = .ok response ∧
         response.Body.isSome = true ∧ recordsOf response = [])) ∧
    ((∃ v err, (GetResourceById timeParse op ctx regionId instanceId s).out
        = .returned (v, some err)) ↔
      (∃ v err, (GetInstanceById timeParse op ctx regionId instanceId s).out
        = .returned (v, some err))) := by
  unfold GetResourceById
  rw [GetInstanceById_eq]
  rcases hd : op.client.DescribeInstances s
    (byIdRequest (effectiveRegion op regionId) instanceId) with ⟨r, s1⟩
  cases r with
  | error err => simp [CloudResource.ofPointer]
  | ok response =>
    cases hc : convertToECSInstances timeParse response with
    | none =>
      have hwf : wellFormed response = true → False := fun h => by
        have := convertToECSInstances_wellFormed timeParse response h
        simp [hc] at this
      have hz : response.Body.isSome = true → recordsOf response = [] → False := fun h1 h2 => by
        have := convertToECSInstances_of_no_records timeParse response h1 h2
        simp [hc] at this
      simp only [hc, true_and]
      refine ⟨by simp, ?_, ?_, ?_, by simp⟩
      · intro r hr h1 h2
        cases hr
        exact (hz h1 h2).elim
      · intro r first rest hr h1
        cases hr
        exact (hwf h1).elim
      · simp
        intro h1 h2
        exact hz h1 h2
    | some ents =>
      have hspec := convertToECSInstances_spec timeParse response ents hc
      have hbody := convertToECSInstances_body timeParse response ents hc
      cases ents with
      | nil =>
        have hrec : recordsOf response = [] := by simpa using hspec.symm
        simp only [hc, true_and]
        refine ⟨by simp, ?_, ?_, ?_, by simp⟩
        · intro r hr _ _
          cases hr
          exact ⟨rfl, rfl, "实例 ", " 不存在", rfl⟩
        · intro r first rest hr _ h2
          cases hr
          simp [hrec] at h2
        · simp [hbody, hrec]
      | cons inst more =>
        simp only [hc, true_and]
        refine ⟨by simp, ?_, ?_, ?_, by simp⟩
        · intro r hr _ h2
          cases hr
          simp [h2] at hspec
        · intro r first rest hr _ h2
          cases hr
          rw [h2] at hspec
          simp only [List.map_cons, List.cons.injEq] at hspec
          exact ⟨inst, hspec.1.symm, rfl, rfl⟩
        · simp
          intro _ h2
          simp [h2] at hspec

/-- C10 amended, at a concrete provider: the id `i-0404` has no record and
yields the error naming it, with a non-nil resource holding the nil pointer
from `GetResourceById`; the id `i-0001` yields its instance. -/
theorem GetInstanceById_outcomes_witness :
    (GetInstanceById noTimes (NewECSOperator byIdProvider "cn-hangzhou") ⟨none⟩ ""
        "i-0404" ()).out = .returned (none, some (.errorf "实例 i-0404 不存在")) ∧
    (GetResourceById noTimes (NewECSOperator byIdProvider "cn-hangzhou") ⟨none⟩ ""
        "i-0404" ()).out = .returned (some .nilECS, some (.errorf "实例 i-0404 不存在")) ∧
    ∃ inst, convertRecord noTimes (some sampleRecord) = some inst ∧
      (GetInstanceById noTimes (NewECSOperator byIdProvider "cn-hangzhou") ⟨none⟩ ""
        "i-0001" ()).out = .returned (some inst, none) := by
  have h404 := (GetInstanceById_outcomes noTimes (NewECSOperator byIdProvider "cn-hangzhou")
    ⟨none⟩ "" "i-0404" ()).2.2.1 (samplePage (I32.ofInt 0) 0) rfl rfl rfl
  have h1 := (GetInstanceById_outcomes noTimes (NewECSOperator byIdProvider "cn-hangzhou")
    ⟨none⟩ "" "i-0001" ()).2.2.2.1 (samplePage (I32.ofInt 1) 1) (some sampleRecord) [] rfl
    (by decide) rfl
  obtain ⟨inst, hi, ho, _⟩ := h1
  exact ⟨h404.1, h404.2.1, inst, hi, ho⟩

/-! ## Tags of one resource, tag mutation -/

/-- C11, where the code departs from it: for every region and resource id
`GetResourceTags` (and `GetInstanceTags`) returns the empty map without error
and without any request to the provider, also for the instance `i-0001`,
which the provider reports with the tag `env: prod`. -/
theorem GetResourceTags_always_empty {σ : Type} (op : ECSOperator σ) (ctx : Context)
    (regionId resourceId : String) (s : σ) :
    GetResourceTags op ctx regionId resourceId s = ⟨.returned (∅, none), s, []⟩ ∧
    GetInstanceTags op ctx regionId resourceId s = ⟨.returned (∅, none), s, []⟩ ∧
    sampleRecord.Tags = some [("env", "prod")] ∧
    (GetResourceTags (NewECSOperator byIdProvider "cn-hangzhou") ⟨none⟩ "" "i-0001" ()).out
      = .returned (∅, none) :=
  ⟨rfl, rfl, rfl, rfl⟩

theorem notFound_message_ne (instanceId : String) (msg : String)
    (h : msg.data.head? ≠ some '实') : "实例 " ++ instanceId ++ " 不存在" ≠ msg := by
  intro heq
  apply h
  rw [← heq]
  simp [String.data_append]

/-- C12, as stated, fails: the error `TagResource` returns is not of a kind of
its own; it has the kind of the not-found error that `GetInstanceById`
returns for an id without record, and so has the error of `UntagResource`. -/
theorem TagResource_error_kind_not_distinct :
    ∃ unimplemented untag notFound : GoError,
      (TagResource (NewECSOperator byIdProvider "cn-hangzhou") ⟨none⟩ "" "i-0001" ∅ ()).out
        = .returned (some unimplemented) ∧
      (UntagResource (NewECSOperator byIdProvider "cn-hangzhou") ⟨none⟩ "" "i-0001" [] ()).out
        = .returned (some untag) ∧
      (GetInstanceById noTimes (NewECSOperator byIdProvider "cn-hangzhou") ⟨none⟩ ""
        "i-0404" ()).out = .returned (none, some notFound) ∧
      unimplemented.kind = notFound.kind ∧
      untag.kind = notFound.kind :=
  ⟨_, _, _, rfl, rfl, rfl, rfl, rfl⟩

/-- C12, amended. `TagResource` and `UntagResource` never report success:
each returns a non-nil error and issues no request. The error is the plain
`fmt.Errorf` value with the message `TagResource not implemented yet`
(`UntagResource not implemented yet`), without a kind of its own: it has the
kind of every not-found error of `GetInstanceById` and differs from each of
them in its message, and it differs in kind from every provider error that is
not a plain error string (an error of the SDK's own type, with a code). -/
theorem TagResource_unimplemented {σ : Type} (op : ECSOperator σ) (ctx : Context)
    (regionId resourceId : String) (tags : GoMap String) (tagKeys : List String) (s : σ) :
    TagResource op ctx regionId resourceId tags s
      = ⟨.returned (some (.errorf "TagResource not implemented yet")), s, []⟩ ∧
    UntagResource op ctx regionId resourceId tagKeys s
      = ⟨.returned (some (.errorf "UntagResource not implemented yet")), s, []⟩ ∧
    (∀ instanceId : String,
      (GoError.errorf ("实例 " ++ instanceId ++ " 不存在")).kind
        = (GoError.errorf "TagResource not implemented yet").kind ∧
      (GoError.errorf ("实例 " ++ instanceId ++ " 不存在")).kind
        = (GoError.errorf "UntagResource not implemented yet").kind ∧
      (GoError.errorf ("实例 " ++ instanceId ++ " 不存在")).Error
        ≠ (GoError.errorf "TagResource not implemented yet").Error ∧
      (GoError.errorf ("实例 " ++ instanceId ++ " 不存在")).Error
        ≠ (GoError.errorf "UntagResource not implemented yet").Error) ∧
    (∀ code msg : String,
      (GoError.other code msg).kind ≠ (GoError.errorf "TagResource not implemented yet").kind ∧
      (GoError.other code msg).kind
        ≠ (GoError.errorf "UntagResource not implemented yet").kind) := by
  refine ⟨rfl, rfl, fun instanceId => ⟨rfl, rfl, ?_, ?_⟩,
    fun code msg => by simp [GoError.kind]⟩
  · exact notFound_message_ne instanceId _ (by decide)
  · exact notFound_message_ne instanceId _ (by decide)

/-! ## The stop test -/

/-- C14. For all `int32` values `p` (the page number) and `t` (the reported
total), the product `int64(p) * int64(100)` is the integer `p * 100`, it does
not wrap, and the stop test is true exactly when `p * 100 ≥ t` over the
integers. -/
theorem stopTest_no_wrap (p t : I32) :
    int64 (int64 p.toInt * int64 (I32.ofInt 100).toInt) = p.toInt * 100 ∧
    int64 t.toInt = t.toInt ∧
    stopTest p (I32.ofInt 100) t = decide (p.toInt * 100 ≥ t.toInt) := by
  have hp := p.inRange
  have ht := t.inRange
  have hs : (I32.ofInt 100).toInt = 100 := I32.toInt_ofInt 100 (by decide)
  unfold stopTest
  rw [hs]
  unfold int64 wrapInt
  norm_num
  refine ⟨by omega, by omega, by omega⟩

/-! ## Cancellation, the mapper on omitted fields -/

/-- C16, where the code departs from it: called with a context that is
already cancelled, `ListInstances` still issues the three page requests of the
250-instance provider and returns a result without error; for every context
the run is the one of a live context. -/
theorem ListInstances_ignores_cancellation :
    (ListInstances noTimes (NewECSOperator (providerOf (I32.ofInt 250)) "cn-hangzhou")
        cancelledContext "" 3 ()).calls
      = [pageRequest "cn-hangzhou" (I32.ofInt 1) (I32.ofInt 100),
         pageRequest "cn-hangzhou" (I32.ofInt 2) (I32.ofInt 100),
         pageRequest "cn-hangzhou" (I32.ofInt 3) (I32.ofInt 100)] ∧
    (∃ ents, (ListInstances noTimes
        (NewECSOperator (providerOf (I32.ofInt 250)) "cn-hangzhou")
        cancelledContext "" 3 ()).out = .returned (ents, none)) ∧
    (∀ ctx : Context,
      ListInstances noTimes (NewECSOperator (providerOf (I32.ofInt 250)) "cn-hangzhou")
          ctx "" 3 ()
        = ListInstances noTimes (NewECSOperator (providerOf (I32.ofInt 250)) "cn-hangzhou")
          ⟨none⟩ "" 3 ()) :=
  ⟨rfl, ⟨_, rfl⟩, fun _ => rfl⟩

/-- C17, where the code departs from it: on a response whose one record
omits `InstanceName` the mapper panics (a nil dereference) instead of
returning an entity with a default name, and so does a listing that receives
this response; a response without an instance list does map to the empty
list. -/
theorem convertToECSInstances_panics_on_omitted_field :
    recordsOf unnamedRecordPage = [some { sampleRecord with InstanceName := none }] ∧
    convertToECSInstances noTimes unnamedRecordPage = none ∧
    (ListInstances noTimes
      (NewECSOperator { DescribeInstances := fun s _ => (.ok unnamedRecordPage, s) }
        "cn-hangzhou") ⟨none⟩ "" 1 ()).out = .panicked ∧
    convertToECSInstances noTimes noListPage = some [] :=
  ⟨rfl, rfl, rfl, rfl⟩

/-! ## Enabled accounts -/

theorem GetEnabledAccounts.loop_filter :
    ∀ (accounts enabledAccounts : List AccountConfig),
      GetEnabledAccounts.loop accounts enabledAccounts
        = enabledAccounts ++ accounts.filter (fun a => a.Enabled) := by
  intro accounts
  induction accounts with
  | nil => intro enabledAccounts; simp [GetEnabledAccounts.loop]
  | cons a rest ih =>
    intro enabledAccounts
    by_cases h : a.Enabled = true <;> simp [GetEnabledAccounts.loop, h, ih]

/-- C18. For every loaded configuration `GetEnabledAccounts` returns the
accounts whose `Enabled` flag is true, in their configuration order: the
result is the configured list with the disabled accounts left out, so an
account is in it iff it is configured and enabled, an enabled account occurs
as often as it is configured, and the result is empty when no account is
enabled. -/
theorem GetEnabledAccounts_exact (config : Config) :
    ∃ enabled : List AccountConfig,
      GetEnabledAccounts ⟨some config⟩ = some enabled ∧
      enabled = config.Accounts.filter (fun a => a.Enabled) ∧
      enabled.Sublist config.Accounts ∧
      (∀ a, a ∈ enabled ↔ a ∈ config.Accounts ∧ a.Enabled = true) ∧
      (∀ a, a.Enabled = false → a ∉ enabled) ∧
      (∀ a, a.Enabled = true → enabled.count a = config.Accounts.count a) ∧
      ((∀ a ∈ config.Accounts, a.Enabled = false) → enabled = []) := by
  refine ⟨config.Accounts.filter (fun a => a.Enabled), ?_, rfl, List.filter_sublist _, ?_, ?_,
    ?_, ?_⟩
  · simp [GetEnabledAccounts, GetEnabledAccounts.loop_filter]
  · intro a
    simp [List.mem_filter]
  · intro a ha
    simp [List.mem_filter, ha]
  · intro a ha
    exact List.count_filter (by simpa using ha)
  · intro h
    apply List.filter_eq_nil_iff.mpr
    intro a ha
    simp [h a ha]

/-- C18 on a configuration of three accounts, the second one disabled. -/
theorem GetEnabledAccounts_exact_witness :
    GetEnabledAccounts
      ⟨some
        { DefaultRegion := "cn-hangzhou"
          Accounts := [sampleAccount "prod" true, sampleAccount "old" false,
            sampleAccount "test" true]
          Cache :=
            { Enabled := false, ExpireTime := 0, StorageType := "memory", RedisAddress := "",
              RedisPassword := "", RedisDB := 0 }
          ResourceTypes := ["ECS"] }⟩
      = some [sampleAccount "prod" true, sampleAccount "test" true] := by
  obtain ⟨enabled, h1, h2, _⟩ := GetEnabledAccounts_exact
    { DefaultRegion := "cn-hangzhou"
      Accounts := [sampleAccount "prod" true, sampleAccount "old" false,
        sampleAccount "test" true]
      Cache :=
        { Enabled := false, ExpireTime := 0, StorageType := "memory", RedisAddress := "",
          RedisPassword := "", RedisDB := 0 }
      ResourceTypes := ["ECS"] }
  rw [h1, h2]
  rfl

/-! ## What the tag filter keeps -/

theorem GoMap.index_eq_iff_lookup (m : GoMap String) (k v : String) (hv : v ≠ "") :
    m.index k = v ↔ m.lookup k = some v := by
  unfold GoMap.index
  cases h : m.lookup k with
  | none =>
    simp only [Option.getD_none]
    constructor
    · intro h1; exact (hv h1.symm).elim
    · intro h1; cases h1
  | some w => simp

/-- C19. The tag filter keeps an aggregated instance iff indexing its tag map
at every key of the mapping (the empty text for an absent key) gives exactly
the required value; when every required value is non-empty, this is: iff its
tag map contains every pair of the mapping. `ListInstancesByTags` returns the
instances so kept of what `ListInstances` returns. -/
theorem filterByTags_keeps_iff {σ : Type} (timeParse : String → Option Time)
    (op : ECSOperator σ) (ctx : Context) (regionId : String) (fuel : Nat) (s : σ)
    (tags : GoMap String) (allInstances : List ECSInstance) (inst : ECSInstance) :
    (inst ∈ filterByTags tags allInstances ↔
      inst ∈ allInstances ∧ ∀ k v, tags.lookup k = some v → inst.Tags.index k = v) ∧
    ((∀ k v, tags.lookup k = some v → v ≠ "") →
      (inst ∈ filterByTags tags allInstances ↔
        inst ∈ allInstances ∧ ∀ k v, tags.lookup k = some v → inst.Tags.lookup k = some v)) ∧
    ((ListInstances timeParse op ctx regionId fuel s).out = .returned (allInstances, none) →
      (ListInstancesByTags timeParse op ctx regionId tags fuel s).out
        = .returned (filterByTags tags allInstances, none)) := by
  have h1 : inst ∈ filterByTags tags allInstances ↔
      inst ∈ allInstances ∧ ∀ k v, tags.lookup k = some v → inst.Tags.index k = v := by
    rw [filterByTags_eq, List.mem_filter, passesTags_iff]
  refine ⟨h1, ?_, ?_⟩
  · intro hne
    rw [h1]
    constructor
    · rintro ⟨hm, h⟩
      exact ⟨hm, fun k v hkv =>
        (GoMap.index_eq_iff_lookup inst.Tags k v (hne k v hkv)).mp (h k v hkv)⟩
    · rintro ⟨hm, h⟩
      exact ⟨hm, fun k v hkv =>
        (GoMap.index_eq_iff_lookup inst.Tags k v (hne k v hkv)).mpr (h k v hkv)⟩
  · intro hout
    rw [ListInstancesByTags_eq_listThenFilter]
    unfold listThenFilter
    simp only [hout, filterByTags_eq]

/-- C19 on the instance tagged `env: prod`, `tier: web` and the mapping
`env: prod`. -/
theorem filterByTags_keeps_iff_witness :
    taggedInstance ∈ filterByTags (AList.singleton "env" "prod") [taggedInstance] ↔
      taggedInstance ∈ [taggedInstance] ∧
        ∀ k v, (AList.singleton "env" "prod" : GoMap String).lookup k = some v →
          taggedInstance.Tags.lookup k = some v :=
  (filterByTags_keeps_iff noTimes (NewECSOperator (providerOf (I32.ofInt 0)) "cn-hangzhou")
    ⟨none⟩ "" 1 () (AList.singleton "env" "prod") [taggedInstance] taggedInstance).2.1
    (by
      intro k v h
      by_cases hk : k = "env"
      · subst hk
        have hv : v = "prod" := by simpa [AList.lookup] using h.symm
        rw [hv]
        decide
      · have : (AList.singleton "env" "prod" : GoMap String).lookup k = none := by
          simp [AList.lookup, AList.singleton, List.dlookup, hk, Ne.symm hk]
        rw [this] at h
        cases h)

/-! ## The requests of a run -/

/-- Whatever the provider answers and however the run ends, the requests a
paging loop adds to the log are those for the pages `p`, `p + 1`, ... of the
region, with the page size it was given. -/
theorem ListInstances.loop_calls {σ : Type} (timeParse : String → Option Time)
    (op : ECSOperator σ) (regionId : String) (pageSize : I32) (fuel : Nat) :
    ∀ (s : σ) (p : Int) (allInstances : List ECSInstance)
      (calls : List DescribeInstancesRequest),
      ∃ n, n ≤ fuel ∧ (0 < fuel → 0 < n) ∧
        (ListInstances.loop timeParse op regionId pageSize fuel s (I32.ofInt p)
          allInstances calls).calls = calls ++ pageRequests regionId pageSize n p := by
  induction fuel with
  | zero =>
    intro s p allInstances calls
    exact ⟨0, le_refl _, fun h => absurd h (by decide), by simp [ListInstances.loop, pageRequests]⟩
  | succ f ih =>
    intro s p allInstances calls
    rw [ListInstances.loop]
    rcases hd : op.client.DescribeInstances s (pageRequest regionId (I32.ofInt p) pageSize)
      with ⟨r, s1⟩
    have hone : ∀ (out : Outcome (List ECSInstance × Option GoError)),
        ∃ n, n ≤ f + 1 ∧ (0 < f + 1 → 0 < n) ∧
          (Exec.mk out s1 (calls ++ [pageRequest regionId (I32.ofInt p) pageSize])).calls
            = calls ++ pageRequests regionId pageSize n p :=
      fun _ => ⟨1, by omega, fun _ => by decide, by simp [pageRequests]⟩
    cases r with
    | error err => exact hone _
    | ok response =>
      cases hc : convertToECSInstances timeParse response with
      | none => simpa [hc] using hone .panicked
      | some instances =>
        cases ht : response.Body.bind (fun b => b.TotalCount) with
        | none => simpa [hc, ht] using hone .panicked
        | some totalCount =>
          by_cases hstop : stopTest (I32.ofInt p) pageSize totalCount = true
          · simpa [hc, ht, hstop] using hone (.returned (allInstances ++ instances, none))
          · obtain ⟨n, hn, _, hcalls⟩ := ih s1 (p + 1) (allInstances ++ instances)
              (calls ++ [pageRequest regionId (I32.ofInt p) pageSize])
            refine ⟨n + 1, by omega, fun _ => by omega, ?_⟩
            simp only [hc, ht, hstop, I32.succ_ofInt]
            simpa [pageRequests] using hcalls

theorem pageRequests_region (regionId : String) (pageSize : I32) (n : Nat) :
    ∀ (p : Int), ∀ req ∈ pageRequests regionId pageSize n p, req.RegionId = some regionId := by
  induction n with
  | zero => intro p req h; simp [pageRequests] at h
  | succ n ih =>
    intro p req h
    simp only [pageRequests, List.mem_cons] at h
    rcases h with h | h
    · rw [h]; rfl
    · exact ih (p + 1) req h

theorem pageRequests_getElem? (regionId : String) (pageSize : I32) (n : Nat) :
    ∀ (p : Int) (i : Nat) (req : DescribeInstancesRequest),
      (pageRequests regionId pageSize n p)[i]? = some req →
      req = pageRequest regionId (I32.ofInt (p + (i : Int))) pageSize := by
  induction n with
  | zero => intro p i req h; simp [pageRequests] at h
  | succ n ih =>
    intro p i req h
    cases i with
    | zero =>
      simp only [pageRequests, List.getElem?_cons_zero, Option.some.injEq] at h
      simp [← h]
    | succ j =>
      simp only [pageRequests, List.getElem?_cons_succ] at h
      have h2 := ih (p + 1) j req h
      rw [h2]
      congr 2
      push_cast
      ring

theorem listThenFilter_calls {σ : Type} (timeParse : String → Option Time)
    (op : ECSOperator σ) (ctx : Context) (regionId : String) (tags : GoMap String)
    (fuel : Nat) (s : σ) :
    (listThenFilter timeParse op ctx regionId tags fuel s).calls
      = (ListInstances timeParse op ctx regionId fuel s).calls := by
  unfold listThenFilter
  rcases ListInstances timeParse op ctx regionId fuel s with ⟨out, st, calls⟩
  cases out with
  | returned a =>
    rcases a with ⟨l, _ | err⟩
    · rfl
    · rfl
  | panicked => rfl
  | unfinished => rfl

theorem ListInstances_calls {σ : Type} (timeParse : String → Option Time)
    (op : ECSOperator σ) (ctx : Context) (regionId : String) (fuel : Nat) (s : σ) :
    ∃ n, n ≤ fuel ∧ (0 < fuel → 0 < n) ∧
      (ListInstances timeParse op ctx regionId fuel s).calls
        = pageRequests (effectiveRegion op regionId) (I32.ofInt 100) n 1 := by
  obtain ⟨n, h1, h2, h3⟩ := ListInstances.loop_calls timeParse op (effectiveRegion op regionId)
    (I32.ofInt 100) fuel s 1 [] []
  refine ⟨n, h1, h2, ?_⟩
  have h4 : (ListInstances timeParse op ctx regionId fuel s).calls = _ := h3
  simpa using h4

/-- C13. For an operator built with `NewECSOperator(client, r)`, every request
of a call with an empty region argument carries the region `r`, and every
request of a call with a non-empty region argument `g` carries `g`, for
`ListInstances`, `ListInstancesByTags` and `GetInstanceById`; a listing given
fuel issues at least one request. -/
theorem requests_carry_effective_region {σ : Type} (timeParse : String → Option Time)
    (client : Client σ) (r g instanceId : String) (ctx : Context) (tags : GoMap String)
    (fuel : Nat) (s : σ) :
    (∀ req ∈ (ListInstances timeParse (NewECSOperator client r) ctx "" fuel s).calls,
      req.RegionId = some r) ∧
    (∀ req ∈ (ListInstancesByTags timeParse (NewECSOperator client r) ctx "" tags fuel s).calls,
      req.RegionId = some r) ∧
    (∀ req ∈ (GetInstanceById timeParse (NewECSOperator client r) ctx "" instanceId s).calls,
      req.RegionId = some r) ∧
    (g ≠ "" →
      (∀ req ∈ (ListInstances timeParse (NewECSOperator client r) ctx g fuel s).calls,
        req.RegionId = some g) ∧
      (∀ req ∈ (ListInstancesByTags timeParse (NewECSOperator client r) ctx g tags fuel s).calls,
        req.RegionId = some g) ∧
      (∀ req ∈ (GetInstanceById timeParse (NewECSOperator client r) ctx g instanceId s).calls,
        req.RegionId = some g)) ∧
    (0 < fuel →
      (ListInstances timeParse (NewECSOperator client r) ctx g fuel s).calls ≠ [] ∧
      (ListInstancesByTags timeParse (NewECSOperator client r) ctx g tags fuel s).calls ≠ []) ∧
    (GetInstanceById timeParse (NewECSOperator client r) ctx g instanceId s).calls.length = 1 := by
  have hlist : ∀ region : String,
      ∀ req ∈ (ListInstances timeParse (NewECSOperator client r) ctx region fuel s).calls,
        req.RegionId = some (effectiveRegion (NewECSOperator client r) region) := by
    intro region req hreq
    obtain ⟨n, _, _, h⟩ := ListInstances_calls timeParse (NewECSOperator client r) ctx region fuel s
    rw [h] at hreq
    exact pageRequests_region _ _ n 1 req hreq
  have htags : ∀ region : String,
      (ListInstancesByTags timeParse (NewECSOperator client r) ctx region tags fuel s).calls
        = (ListInstances timeParse (NewECSOperator client r) ctx region fuel s).calls := by
    intro region
    rw [ListInstancesByTags_eq_listThenFilter, listThenFilter_calls]
  have hid : ∀ region : String,
      (GetInstanceById timeParse (NewECSOperator client r) ctx region instanceId s).calls
        = [byIdRequest (effectiveRegion (NewECSOperator client r) region) instanceId] := by
    intro region
    rw [GetInstanceById_eq]
    rcases op_result : client.DescribeInstances s
      (byIdRequest (effectiveRegion (NewECSOperator client r) region) instanceId) with ⟨x, s1⟩
    have hx : (NewECSOperator client r).client.DescribeInstances s
        (byIdRequest (effectiveRegion (NewECSOperator client r) region) instanceId) = (x, s1) :=
      op_result
    rw [hx]
    cases x with
    | error err => rfl
    | ok response =>
      cases hc : convertToECSInstances timeParse response with
      | none => simp [hc]
      | some ents =>
        cases ents with
        | nil => simp [hc]
        | cons e es => simp [hc]
  have hempty : effectiveRegion (NewECSOperator client r) "" = r := by
    simp [effectiveRegion, NewECSOperator]
  have hgiven : g ≠ "" → effectiveRegion (NewECSOperator client r) g = g := by
    intro hg
    simp [effectiveRegion, hg]
  refine ⟨?_, ?_, ?_, ?_, ?_, ?_⟩
  · intro req hreq
    rw [← hempty]
    exact hlist "" req hreq
  · intro req hreq
    rw [htags] at hreq
    rw [← hempty]
    exact hlist "" req hreq
  · intro req hreq
    rw [hid, hempty] at hreq
    simp only [List.mem_singleton] at hreq
    rw [hreq]
    rfl
  · intro hg
    refine ⟨?_, ?_, ?_⟩
    · intro req hreq
      have := hlist g req hreq
      rwa [hgiven hg] at this
    · intro req hreq
      rw [htags] at hreq
      have := hlist g req hreq
      rwa [hgiven hg] at this
    · intro req hreq
      rw [hid, hgiven hg] at hreq
      simp only [List.mem_singleton] at hreq
      rw [hreq]
      rfl
  · intro hfuel
    obtain ⟨n, _, hpos, h⟩ := ListInstances_calls timeParse (NewECSOperator client r) ctx g fuel s
    have hn := hpos hfuel
    have hne : (ListInstances timeParse (NewECSOperator client r) ctx g fuel s).calls ≠ [] := by
      rw [h]
      intro hnil
      have := congrArg List.length hnil
      rw [pageRequests_length] at this
      simp at this
      omega
    exact ⟨hne, by rw [htags]; exact hne⟩
  · rw [hid]
    rfl

/-- C13 on the 250-instance provider: an operator for `cn-hangzhou` asked for
`cn-beijing` sends every request to `cn-beijing`. -/
theorem requests_carry_effective_region_witness :
    ∀ req ∈ (ListInstances noTimes
        (NewECSOperator (providerOf (I32.ofInt 250)) "cn-hangzhou") ⟨none⟩ "cn-beijing" 3 ()).calls,
      req.RegionId = some "cn-beijing" :=
  ((requests_carry_effective_region noTimes (providerOf (I32.ofInt 250)) "cn-hangzhou"
    "cn-beijing" "i-0001" ⟨none⟩ ∅ 3 ()).2.2.2.1 (by decide)).1

/-- C15. In every run of `ListInstances` or `ListInstancesByTags`, against any
provider and however the run ends, the requests issued are those for the
pages 1, 2, ... of one region with page size 100, in this order: the request
at position `i` (from 0) carries the page number `i + 1` as long as this is an
`int32` value, and the page size 100. -/
theorem page_cursor_sequence {σ : Type} (timeParse : String → Option Time)
    (op : ECSOperator σ) (ctx : Context) (regionId : String) (tags : GoMap String)
    (fuel : Nat) (s : σ) :
    (ListInstances timeParse op ctx regionId fuel s).calls
      = pageRequests (effectiveRegion op regionId) (I32.ofInt 100)
          (ListInstances timeParse op ctx regionId fuel s).calls.length 1 ∧
    (ListInstancesByTags timeParse op ctx regionId tags fuel s).calls
      = (ListInstances timeParse op ctx regionId fuel s).calls ∧
    (∀ (i : Nat) (req : DescribeInstancesRequest),
      (ListInstances timeParse op ctx regionId fuel s).calls[i]? = some req →
      (req.PageSize.map I32.toInt = some 100 ∧
       req.PageNumber = some (I32.ofInt ((i : Int) + 1)) ∧
       ((i : Int) + 1 ≤ 2147483647 → req.PageNumber.map I32.toInt = some ((i : Int) + 1)))) ∧
    (0 < fuel → (ListInstances timeParse op ctx regionId fuel s).calls[0]?
      = some (pageRequest (effectiveRegion op regionId) (I32.ofInt 1) (I32.ofInt 100))) := by
  obtain ⟨n, _, hpos, h⟩ := ListInstances_calls timeParse op ctx regionId fuel s
  have hlen : (ListInstances timeParse op ctx regionId fuel s).calls.length = n := by
    rw [h, pageRequests_length]
  refine ⟨?_, ?_, ?_, ?_⟩
  · rw [hlen]
    exact h
  · rw [ListInstancesByTags_eq_listThenFilter, listThenFilter_calls]
  · intro i req hreq
    rw [h] at hreq
    have hr := pageRequests_getElem? _ _ n 1 i req hreq
    have hpage : (1 : Int) + (i : Int) = (i : Int) + 1 := by ring
    rw [hpage] at hr
    rw [hr]
    refine ⟨?_, rfl, ?_⟩
    · simp [pageRequest, I32.toInt_ofInt 100 (by decide)]
    · intro hi
      simp [pageRequest, I32.toInt_ofInt ((i : Int) + 1) ⟨by omega, hi⟩]
  · intro hfuel
    have hn := hpos hfuel
    obtain ⟨m, rfl⟩ : ∃ m, n = m + 1 := ⟨n - 1, by omega⟩
    rw [h]
    simp [pageRequests]

/-- C15 on the 250-instance provider: the third request carries page number 3
and page size 100. -/
theorem page_cursor_sequence_witness :
    ∃ req, (ListInstances noTimes (NewECSOperator (providerOf (I32.ofInt 250)) "cn-hangzhou")
        ⟨none⟩ "" 3 ()).calls[2]? = some req ∧
      req.PageSize.map I32.toInt = some 100 ∧ req.PageNumber.map I32.toInt = some 3 := by
  have h := (page_cursor_sequence noTimes
    (NewECSOperator (providerOf (I32.ofInt 250)) "cn-hangzhou") ⟨none⟩ "" ∅ 3 ()).2.2.1 2
    (pageRequest "cn-hangzhou" (I32.ofInt 3) (I32.ofInt 100)) rfl
  exact ⟨_, rfl, h.1, h.2.2 (by decide)⟩

/-! ## Termination under bounded totals -/

theorem pageContinues_of_response {σ : Type} (timeParse : String → Option Time) (c : Client σ)
    (regionId : String) (pageSize : I32) (s : σ) (p : Int)
    (response : DescribeInstancesResponse) (totalCount : I32)
    (hok : (c.DescribeInstances s (pageRequest regionId (I32.ofInt p) pageSize)).1 = .ok response)
    (hwf : wellFormed response = true) (htc : totalCountOf response = some totalCount) :
    pageContinues timeParse c regionId pageSize s p
      = !stopTest (I32.ofInt p) pageSize totalCount := by
  unfold pageContinues
  rw [hok]
  simp [convertToECSInstances_wellFormed timeParse response hwf, htc]

/-- With every reported total at most `N`, some page among the next `m + 1`
meets the stop test, provided page `p + m` is far enough for `N`. -/
theorem exists_stopping_page {σ : Type} (timeParse : String → Option Time) (c : Client σ)
    (regionId : String) (N : Nat)
    (hfetch : ∀ s req, ∃ response totalCount, (c.DescribeInstances s req).1 = .ok response ∧
      totalCountOf response = some totalCount ∧ totalCount.toInt ≤ (N : Int) ∧
      wellFormed response = true) (m : Nat) :
    ∀ (s : σ) (p : Int), 0 ≤ p → p ≤ 2147483647 → (N : Int) ≤ (p + m) * 100 →
      ∃ n, n ≤ m ∧ pagesContinue timeParse c regionId (I32.ofInt 100) n s p = true ∧
        ∃ response totalCount,
          (c.DescribeInstances (stateAfter c regionId (I32.ofInt 100) n s p)
            (pageRequest regionId (I32.ofInt (p + n)) (I32.ofInt 100))).1 = .ok response ∧
          totalCountOf response = some totalCount ∧ wellFormed response = true ∧
          stopTest (I32.ofInt (p + n)) (I32.ofInt 100) totalCount = true := by
  induction m with
  | zero =>
    intro s p hp0 hp1 hN
    obtain ⟨response, tc, hok, htc, hle, hwf⟩ :=
      hfetch s (pageRequest regionId (I32.ofInt p) (I32.ofInt 100))
    refine ⟨0, le_refl _, rfl, response, tc, ?_, htc, hwf, ?_⟩
    · simpa [stateAfter] using hok
    · simp only [Nat.cast_zero, add_zero] at hN ⊢
      rw [stopTest_ofInt p tc ⟨hp0, hp1⟩]
      simp
      omega
  | succ m ih =>
    intro s p hp0 hp1 hN
    obtain ⟨response, tc, hok, htc, hle, hwf⟩ :=
      hfetch s (pageRequest regionId (I32.ofInt p) (I32.ofInt 100))
    by_cases hstop : stopTest (I32.ofInt p) (I32.ofInt 100) tc = true
    · refine ⟨0, by omega, rfl, response, tc, ?_, htc, hwf, ?_⟩
      · simpa [stateAfter] using hok
      · simpa using hstop
    · have hcont : pageContinues timeParse c regionId (I32.ofInt 100) s p = true := by
        rw [pageContinues_of_response timeParse c regionId _ s p response tc hok hwf htc]
        simpa using hstop
      have hlt : p * 100 < tc.toInt := by
        rw [stopTest_ofInt p tc ⟨hp0, hp1⟩] at hstop
        simpa using hstop
      have htr := tc.inRange
      obtain ⟨n, hn, hpc, response2, tc2, hok2, htc2, hwf2, hstop2⟩ :=
        ih (c.DescribeInstances s (pageRequest regionId (I32.ofInt p) (I32.ofInt 100))).2 (p + 1)
          (by omega) (by omega) (by push_cast at hN; omega)
      have hpage : p + 1 + (n : Int) = p + ((n + 1 : Nat) : Int) := by push_cast; ring
      rw [hpage] at hok2 hstop2
      refine ⟨n + 1, by omega, ?_, response2, tc2, hok2, htc2, hwf2, hstop2⟩
      simp only [pagesContinue, Bool.and_eq_true]
      exact ⟨hcont, hpc⟩

/-- On the pages before the one that ends a run, the reported total is above
the page number times 100. -/
theorem pagesContinue_totals {σ : Type} (timeParse : String → Option Time) (c : Client σ)
    (regionId : String) (n : Nat) :
    ∀ (s : σ) (p : Int), 0 ≤ p → p ≤ 2147483647 →
      pagesContinue timeParse c regionId (I32.ofInt 100) n s p = true →
      ∀ i : Nat, i < n → ∃ response totalCount,
        (c.DescribeInstances (stateAfter c regionId (I32.ofInt 100) i s p)
          (pageRequest regionId (I32.ofInt (p + i)) (I32.ofInt 100))).1 = .ok response ∧
        totalCountOf response = some totalCount ∧
        (p + (i : Int)) * 100 < totalCount.toInt := by
  induction n with
  | zero => intro s p _ _ _ i hi; omega
  | succ n ih =>
    intro s p hp0 hp1 hpc i hi
    simp only [pagesContinue, Bool.and_eq_true] at hpc
    obtain ⟨hfirst, hrest⟩ := hpc
    have hhead : ∃ response totalCount,
        (c.DescribeInstances s (pageRequest regionId (I32.ofInt p) (I32.ofInt 100))).1
          = .ok response ∧
        totalCountOf response = some totalCount ∧ p * 100 < totalCount.toInt := by
      unfold pageContinues at hfirst
      cases hr : (c.DescribeInstances s (pageRequest regionId (I32.ofInt p) (I32.ofInt 100))).1 with
      | error e => simp [hr] at hfirst
      | ok response =>
        cases ht : totalCountOf response with
        | none => simp [hr, ht] at hfirst
        | some tc =>
          simp only [hr, ht, Bool.and_eq_true, Bool.not_eq_true'] at hfirst
          rw [stopTest_ofInt p tc ⟨hp0, hp1⟩] at hfirst
          refine ⟨response, tc, rfl, ht, ?_⟩
          simpa using hfirst.2
    cases i with
    | zero => simpa [stateAfter] using hhead
    | succ j =>
      obtain ⟨_, tc0, _, _, hlt⟩ := hhead
      have htr := tc0.inRange
      obtain ⟨response, tc, hok, htc, hlt2⟩ :=
        ih (c.DescribeInstances s (pageRequest regionId (I32.ofInt p) (I32.ofInt 100))).2 (p + 1)
          (by omega) (by omega) hrest j (by omega)
      have hpage : p + 1 + (j : Int) = p + ((j + 1 : Nat) : Int) := by push_cast; ring
      rw [hpage] at hok hlt2
      exact ⟨response, tc, hok, htc, hlt2⟩

/-- Termination of the paging on well-formed responses. Against a fetcher
that succeeds on every page with well-formed
records and reports on every page a total of at most `N` (the totals may
differ from page to page), `ListInstances` returns without error after
`n + 1 ≤ max 1 ⌈N / 100⌉` fetches, for the pages 1 to `n + 1`: on each page
`i ≤ n` the total reported there is above `i * 100`, and page `n + 1` is the
first whose own total is at most its page number times 100. The number of
records on the pages plays no part; the result is the mapped records of the
pages fetched. -/
theorem ListInstances_terminates_within_bound {σ : Type} (timeParse : String → Option Time)
    (op : ECSOperator σ) (ctx : Context) (regionId : String) (N : Nat)
    (hfetch : ∀ s req, ∃ response totalCount,
      (op.client.DescribeInstances s req).1 = .ok response ∧
      totalCountOf response = some totalCount ∧ totalCount.toInt ≤ (N : Int) ∧
      wellFormed response = true)
    (fuel : Nat) (hfuel : max 1 ((N + 99) / 100) ≤ fuel) (s : σ) :
    ∃ (n : Nat) (ents : List ECSInstance),
      n + 1 ≤ max 1 ((N + 99) / 100) ∧
      (ListInstances timeParse op ctx regionId fuel s).out = .returned (ents, none) ∧
      (ListInstances timeParse op ctx regionId fuel s).calls
        = pageRequests (effectiveRegion op regionId) (I32.ofInt 100) (n + 1) 1 ∧
      (ListInstances timeParse op ctx regionId fuel s).calls.length = n + 1 ∧
      (∀ i : Nat, i < n → ∃ response totalCount,
        (op.client.DescribeInstances
          (stateAfter op.client (effectiveRegion op regionId) (I32.ofInt 100) i s 1)
          (pageRequest (effectiveRegion op regionId) (I32.ofInt (1 + (i : Int)))
            (I32.ofInt 100))).1 = .ok response ∧
        totalCountOf response = some totalCount ∧
        (1 + (i : Int)) * 100 < totalCount.toInt) ∧
      (∃ response totalCount,
        (op.client.DescribeInstances
          (stateAfter op.client (effectiveRegion op regionId) (I32.ofInt 100) n s 1)
          (pageRequest (effectiveRegion op regionId) (I32.ofInt (1 + (n : Int)))
            (I32.ofInt 100))).1 = .ok response ∧
        totalCountOf response = some totalCount ∧
        totalCount.toInt ≤ (1 + (n : Int)) * 100) ∧
      ents.map some
        = ((fetchPages op.client (effectiveRegion op regionId) (I32.ofInt 100) (n + 1) s 1).map
            (pageEntities timeParse)).flatten := by
  obtain ⟨m, hm⟩ : ∃ m, max 1 ((N + 99) / 100) = m + 1 :=
    ⟨max 1 ((N + 99) / 100) - 1, by omega⟩
  obtain ⟨n, hn, hpc, response, tc, hok, htc, hwf, hstop⟩ :=
    exists_stopping_page timeParse op.client (effectiveRegion op regionId) N hfetch m s 1
      (by omega) (by omega) (by omega)
  have htotals := pagesContinue_totals timeParse op.client (effectiveRegion op regionId) n s 1
    (by omega) (by omega) hpc
  have hbound : (n : Int) * 100 < 2147483648 := by
    cases n with
    | zero => simp
    | succ k =>
      obtain ⟨_, tck, _, _, hlt⟩ := htotals k (by omega)
      have := tck.inRange
      push_cast
      omega
  have hrun : ListInstances timeParse op ctx regionId fuel s = _ :=
    ListInstances.loop_finish timeParse op (effectiveRegion op regionId) (I32.ofInt 100) n s 1
      [] [] fuel response tc hpc hok (convertToECSInstances_wellFormed timeParse response hwf)
      htc hstop (by omega)
  refine ⟨n, ((fetchPages op.client (effectiveRegion op regionId) (I32.ofInt 100) (n + 1) s 1).map
    (pageInstances timeParse)).flatten, by omega, ?_, ?_, ?_, htotals, ?_, ?_⟩
  · rw [hrun]; simp
  · rw [hrun]; simp
  · rw [hrun]; simp [pageRequests_length]
  · refine ⟨response, tc, hok, htc, ?_⟩
    rw [stopTest_ofInt (1 + (n : Int)) tc ⟨by omega, by omega⟩] at hstop
    simpa using hstop
  · exact fetchPages_entities timeParse op.client _ _
      (fun s req response h => by
        obtain ⟨r, _, hr, _, _, hwf⟩ := hfetch s req
        rw [hr] at h
        rw [← Except.ok.inj h]
        exact convertToECSInstances_wellFormed timeParse r hwf) (n + 1) s 1

theorem shrinkingProvider_bounded (s : Unit) (req : DescribeInstancesRequest) :
    ∃ response totalCount, (shrinkingProvider.DescribeInstances s req).1 = .ok response ∧
      totalCountOf response = some totalCount ∧ totalCount.toInt ≤ ((250 : Nat) : Int) ∧
      wellFormed response = true := by
  have hwf : ∀ (t : I32) (n : Nat), wellFormed (samplePage t n) = true := by
    intro t n
    simp [wellFormed, samplePage, recordsOf, recordComplete, sampleRecord]
  cases hp : req.PageNumber with
  | none =>
    exact ⟨samplePage (I32.ofInt 250) 1, I32.ofInt 250, by simp [shrinkingProvider, hp], rfl,
      by decide, hwf _ _⟩
  | some p =>
    by_cases h : p.toInt ≤ 1
    · exact ⟨samplePage (I32.ofInt 250) 100, I32.ofInt 250,
        by simp [shrinkingProvider, hp, h], rfl, by decide, hwf _ _⟩
    · exact ⟨samplePage (I32.ofInt 150) 50, I32.ofInt 150,
        by simp [shrinkingProvider, hp, h], rfl, by decide, hwf _ _⟩

/-- Termination at a provider that reports 250 on page 1 and 150 afterwards:
within the bound of three fetches, the run ends after the second. -/
theorem ListInstances_terminates_within_bound_witness :
    (∃ (n : Nat) (ents : List ECSInstance), n + 1 ≤ 3 ∧
      (ListInstances noTimes (NewECSOperator shrinkingProvider "cn-hangzhou") ⟨none⟩ "" 3 ()).out
        = .returned (ents, none) ∧
      (ListInstances noTimes (NewECSOperator shrinkingProvider "cn-hangzhou") ⟨none⟩ "" 3
        ()).calls.length = n + 1) ∧
    (ListInstances noTimes (NewECSOperator shrinkingProvider "cn-hangzhou") ⟨none⟩ "" 3
      ()).calls.length = 2 := by
  constructor
  · obtain ⟨n, ents, hn, hout, _, hlen, _⟩ :=
      ListInstances_terminates_within_bound noTimes
        (NewECSOperator shrinkingProvider "cn-hangzhou") ⟨none⟩ "" 250
        shrinkingProvider_bounded 3 (by decide) ()
    exact ⟨n, ents, hn, hout, hlen⟩
  · decide

/-! ## Tags of the mapped entities -/

theorem convertRecord_tags (timeParse : String → Option Time) (r : Option InstanceRecord)
    (e : ECSInstance) (h : convertRecord timeParse r = some e) : e.Tags = ∅ := by
  cases r with
  | none => simp [convertRecord] at h
  | some inst =>
    simp only [convertRecord, Option.bind_eq_bind, Option.pure_def, Option.some_bind,
      Option.bind_eq_some] at h
    obtain ⟨_, _, _, _, _, _, _, _, _, _, _, _, _, _, _, _, h⟩ := h
    cases h
    rfl

theorem convertRecords_tags (timeParse : String → Option Time) :
    ∀ (records : List (Option InstanceRecord)) (ents : List ECSInstance),
      convertRecords timeParse records = some ents → ∀ e ∈ ents, e.Tags = ∅ := by
  intro records
  induction records with
  | nil =>
    intro ents h e he
    simp [convertRecords] at h
    subst h
    simp at he
  | cons r rest ih =>
    intro ents h e he
    cases hr : convertRecord timeParse r with
    | none => simp [convertRecords, hr] at h
    | some e1 =>
      cases hrs : convertRecords timeParse rest with
      | none => simp [convertRecords, hr, hrs] at h
      | some es =>
        simp [convertRecords, hr, hrs] at h
        subst h
        simp only [List.mem_cons] at he
        rcases he with he | he
        · rw [he]
          exact convertRecord_tags timeParse r e1 hr
        · exact ih es hrs e he

theorem convertToECSInstances_tags (timeParse : String → Option Time)
    (response : DescribeInstancesResponse) (ents : List ECSInstance)
    (h : convertToECSInstances timeParse response = some ents) : ∀ e ∈ ents, e.Tags = ∅ := by
  unfold convertToECSInstances at h
  cases hb : response.Body with
  | none => simp [hb] at h
  | some body =>
    cases hi : body.Instances with
    | none =>
      simp [hb, hi] at h
      subst h
      simp
    | some insts =>
      cases hl : insts.Instance with
      | none =>
        simp [hb, hi, hl] at h
        subst h
        simp
      | some records =>
        simp [hb, hi, hl] at h
        exact convertRecords_tags timeParse records ents h

theorem ListInstances.loop_tags {σ : Type} (timeParse : String → Option Time)
    (op : ECSOperator σ) (regionId : String) (pageSize : I32) (fuel : Nat) :
    ∀ (s : σ) (pageNumber : I32) (allInstances : List ECSInstance)
      (calls : List DescribeInstancesRequest) (result : List ECSInstance),
      (∀ e ∈ allInstances, e.Tags = ∅) →
      (ListInstances.loop timeParse op regionId pageSize fuel s pageNumber allInstances calls).out
        = .returned (result, none) →
      ∀ e ∈ result, e.Tags = ∅ := by
  induction fuel with
  | zero =>
    intro s pageNumber allInstances calls result _ h
    simp [ListInstances.loop] at h
  | succ f ih =>
    intro s pageNumber allInstances calls result hall h
    rw [ListInstances.loop] at h
    rcases hd : op.client.DescribeInstances s (pageRequest regionId pageNumber pageSize)
      with ⟨r, s1⟩
    rw [hd] at h
    cases r with
    | error err => simp at h
    | ok response =>
      cases hc : convertToECSInstances timeParse response with
      | none => simp [hc] at h
      | some instances =>
        have hnew : ∀ e ∈ allInstances ++ instances, e.Tags = ∅ := by
          intro e he
          rcases List.mem_append.mp he with he | he
          · exact hall e he
          · exact convertToECSInstances_tags timeParse response instances hc e he
        cases ht : response.Body.bind (fun b => b.TotalCount) with
        | none => simp [hc, ht] at h
        | some totalCount =>
          by_cases hstop : stopTest pageNumber pageSize totalCount = true
          · simp [hc, ht, hstop] at h
            rw [← h]
            exact hnew
          · simp only [hc, ht, hstop] at h
            exact ih s1 pageNumber.succ (allInstances ++ instances) _ result hnew h

theorem passesTags_untagged (tags : GoMap String) (inst : ECSInstance)
    (hinst : inst.Tags = ∅) (htags : ∃ k v, tags.lookup k = some v ∧ v ≠ "") :
    passesTags tags inst = false := by
  obtain ⟨k, v, hkv, hv⟩ := htags
  cases hp : passesTags tags inst with
  | false => rfl
  | true =>
    have h := (passesTags_iff tags inst).mp hp k v hkv
    rw [hinst] at h
    exact (hv h.symm).elim

/-- C21. Every entity the mapper produces carries the empty tag map, whatever
the tags of the provider record. Hence, for a tag mapping with at least one
pair of non-empty value, whenever the paged fetch succeeds (`ListInstances`
returns instances) `ListInstancesByTags` and `ListResourcesByTags` return the
empty result without error, and so does `ListResourcesByTag` for a non-empty
tag value; they return nothing else than the empty result. -/
theorem ListInstancesByTags_empty_result {σ : Type} (timeParse : String → Option Time)
    (op : ECSOperator σ) (ctx : Context) (regionId : String) (tags : GoMap String)
    (tagKey tagValue : String) (fuel : Nat) (s : σ) :
    (∀ (r : Option InstanceRecord) (e : ECSInstance),
      convertRecord timeParse r = some e → e.Tags = ∅) ∧
    (∀ (response : DescribeInstancesResponse) (ents : List ECSInstance),
      convertToECSInstances timeParse response = some ents → ∀ e ∈ ents, e.Tags = ∅) ∧
    ((∃ k v, tags.lookup k = some v ∧ v ≠ "") →
      (∀ all, (ListInstances timeParse op ctx regionId fuel s).out = .returned (all, none) →
        (ListInstancesByTags timeParse op ctx regionId tags fuel s).out = .returned ([], none) ∧
        (ListResourcesByTags timeParse op ctx regionId tags fuel s).out
          = .returned ([], none)) ∧
      (∀ kept, (ListInstancesByTags timeParse op ctx regionId tags fuel s).out
          = .returned (kept, none) → kept = []) ∧
      (∀ res, (ListResourcesByTags timeParse op ctx regionId tags fuel s).out
          = .returned (res, none) → res = [])) ∧
    (tagValue ≠ "" →
      (∀ all, (ListInstances timeParse op ctx regionId fuel s).out = .returned (all, none) →
        (ListResourcesByTag timeParse op ctx regionId tagKey tagValue fuel s).out
          = .returned ([], none)) ∧
      (∀ res, (ListResourcesByTag timeParse op ctx regionId tagKey tagValue fuel s).out
          = .returned (res, none) → res = [])) := by
  have hfilter : ∀ (t : GoMap String), (∃ k v, t.lookup k = some v ∧ v ≠ "") →
      ∀ all, (ListInstances timeParse op ctx regionId fuel s).out = .returned (all, none) →
        (ListInstancesByTags timeParse op ctx regionId t fuel s).out = .returned ([], none) := by
    intro t ht all hall
    have htagsAll : ∀ e ∈ all, e.Tags = ∅ :=
      ListInstances.loop_tags timeParse op (effectiveRegion op regionId) (I32.ofInt 100) fuel s
        (I32.ofInt 1) [] [] all (by simp) hall
    have hnil : all.filter (passesTags t) = [] := by
      apply List.filter_eq_nil_iff.mpr
      intro e he
      simp [passesTags_untagged t e (htagsAll e he) ht]
    rw [ListInstancesByTags_eq_listThenFilter]
    unfold listThenFilter
    simp only [hall, hnil]
  have hwrap : ∀ (t : GoMap String),
      (ListInstancesByTags timeParse op ctx regionId t fuel s).out = .returned ([], none) →
      (wrapList (ListInstancesByTags timeParse op ctx regionId t fuel s)).out
        = .returned ([], none) := by
    intro t h
    simpa [toResources] using (wrapList_returned _ [] h).1
  have hback : ∀ (t : GoMap String), (∃ k v, t.lookup k = some v ∧ v ≠ "") →
      ∀ kept, (ListInstancesByTags timeParse op ctx regionId t fuel s).out
        = .returned (kept, none) → kept = [] := by
    intro t ht kept hkept
    have hlist : ∃ all, (ListInstances timeParse op ctx regionId fuel s).out
        = .returned (all, none) := by
      rw [ListInstancesByTags_eq_listThenFilter] at hkept
      unfold listThenFilter at hkept
      rcases hrun : ListInstances timeParse op ctx regionId fuel s with ⟨out, st, calls⟩
      rw [hrun] at hkept
      cases out with
      | returned a =>
        rcases a with ⟨l, _ | err⟩
        · exact ⟨l, rfl⟩
        · simp at hkept
      | panicked => simp at hkept
      | unfinished => simp at hkept
    obtain ⟨all, hall⟩ := hlist
    have h := hfilter t ht all hall
    rw [h] at hkept
    simp at hkept
    exact hkept
  have hbackRes : ∀ (t : GoMap String), (∃ k v, t.lookup k = some v ∧ v ≠ "") →
      ∀ res, (wrapList (ListInstancesByTags timeParse op ctx regionId t fuel s)).out
        = .returned (res, none) → res = [] := by
    intro t ht res hres
    rcases hrun : ListInstancesByTags timeParse op ctx regionId t fuel s with ⟨out, st, calls⟩
    have hk := hback t ht
    rw [hrun] at hres hk
    cases out with
    | returned a =>
      rcases a with ⟨l, _ | err⟩
      · have hl := hk l rfl
        subst hl
        simp [wrapList, toResources] at hres
        exact hres
      · simp [wrapList] at hres
    | panicked => simp [wrapList] at hres
    | unfinished => simp [wrapList] at hres
  have hsingle : tagValue ≠ "" →
      ∃ k v, (AList.singleton tagKey tagValue : GoMap String).lookup k = some v ∧ v ≠ "" :=
    fun hv => ⟨tagKey, tagValue, by simp [AList.lookup, AList.singleton], hv⟩
  refine ⟨convertRecord_tags timeParse, convertToECSInstances_tags timeParse, ?_, ?_⟩
  · intro ht
    exact ⟨fun all hall => ⟨hfilter tags ht all hall, hwrap tags (hfilter tags ht all hall)⟩,
      hback tags ht, hbackRes tags ht⟩
  · intro hv
    exact ⟨fun all hall => hwrap _ (hfilter _ (hsingle hv) all hall), hbackRes _ (hsingle hv)⟩

/-- C21 on the 250-instance provider, whose records carry the tag
`env: prod`: listing by `env: prod` fetches the three pages and returns the
empty result without error. -/
theorem ListInstancesByTags_empty_result_witness :
    sampleRecord.Tags = some [("env", "prod")] ∧
    (ListInstancesByTags noTimes (NewECSOperator (providerOf (I32.ofInt 250)) "cn-hangzhou")
      ⟨none⟩ "" (AList.singleton "env" "prod") 3 ()).out = .returned ([], none) ∧
    (ListResourcesByTag noTimes (NewECSOperator (providerOf (I32.ofInt 250)) "cn-hangzhou")
      ⟨none⟩ "" "env" "prod" 3 ()).out = .returned ([], none) := by
  have h := ListInstancesByTags_empty_result noTimes
    (NewECSOperator (providerOf (I32.ofInt 250)) "cn-hangzhou") ⟨none⟩ ""
    (AList.singleton "env" "prod") "env" "prod" 3 ()
  have hrun : ∃ all, (ListInstances noTimes
      (NewECSOperator (providerOf (I32.ofInt 250)) "cn-hangzhou") ⟨none⟩ "" 3 ()).out
        = .returned (all, none) := ⟨_, rfl⟩
  obtain ⟨all, hall⟩ := hrun
  exact ⟨rfl,
    ((h.2.2.1 ⟨"env", "prod", by decide, by decide⟩).1 all hall).1,
    (h.2.2.2 (by decide)).1 all hall⟩

/-! ## Paging over a record with an omitted field -/

/-- C1, where the code departs from it: a fetcher that succeeds on every page
and reports the total 1 on every page, its one record omitting the instance
name. `ListInstances` and `ListResources` do not return the mapped record:
with any fuel they panic after the request for page 1 (the nil dereference of
the mapper). -/
theorem ListInstances_panics_on_omitted_field :
    (∀ s req, (unnamedProvider.DescribeInstances s req).1 = .ok unnamedRecordPage) ∧
    totalCountOf unnamedRecordPage = some (I32.ofInt 1) ∧
    (recordsOf unnamedRecordPage).length = 1 ∧
    (∀ fuel : Nat,
      (ListInstances noTimes (NewECSOperator unnamedProvider "cn-hangzhou") ⟨none⟩ ""
        (fuel + 1) ()).out = .panicked ∧
      (ListInstances noTimes (NewECSOperator unnamedProvider "cn-hangzhou") ⟨none⟩ ""
        (fuel + 1) ()).calls = [pageRequest "cn-hangzhou" (I32.ofInt 1) (I32.ofInt 100)] ∧
      (ListResources noTimes (NewECSOperator unnamedProvider "cn-hangzhou") ⟨none⟩ ""
        (fuel + 1) ()).out = .panicked) :=
  ⟨fun _ _ => rfl, rfl, rfl, fun _ => ⟨rfl, rfl, rfl⟩⟩

/-- C20, where the code departs from it: a fetcher that succeeds on every page
and reports a total of 250 on every page, each page holding one record that
omits the instance name. The loop does not run to the first page whose total
is at most its page number times 100: with any fuel it ends after the request
for page 1 by a panic, and page 1 does not meet the stop test. -/
theorem ListInstances_panics_before_stopping_page :
    (∀ s req, ∃ response, (unnamedLargeProvider.DescribeInstances s req).1 = .ok response ∧
      totalCountOf response = some (I32.ofInt 250)) ∧
    stopTest (I32.ofInt 1) (I32.ofInt 100) (I32.ofInt 250) = false ∧
    (∀ fuel : Nat,
      (ListInstances noTimes (NewECSOperator unnamedLargeProvider "cn-hangzhou") ⟨none⟩ ""
        (fuel + 1) ()).out = .panicked ∧
      (ListInstances noTimes (NewECSOperator unnamedLargeProvider "cn-hangzhou") ⟨none⟩ ""
        (fuel + 1) ()).calls = [pageRequest "cn-hangzhou" (I32.ofInt 1) (I32.ofInt 100)]) :=
  ⟨fun _ _ => ⟨_, rfl, rfl⟩, by decide, fun _ => ⟨rfl, rfl⟩⟩

end Aliyun
